import Mathlib

set_option maxRecDepth 40000

/-!
Verification of the mention ingestion and deduplication pipeline of the
liz_dashboard repository.

The JavaScript sources (api/collect.js, api/law360_collect.js, the congress
tracker, and the read-only endpoints) are shallowly embedded below.  String
primitives of the JavaScript runtime (`toLowerCase`, `trim`, `split`,
`includes`, ...) are modelled character-by-character over `List Char`;
ASCII case mapping is used (all keyword tables in the sources are ASCII).
The WHATWG `URL` class used by `normalizeUrl` is modelled by an explicit
parser for hierarchical `scheme://host/path?query#fragment` URLs; the model
covers exactly the features the source exercises (fragment removal, query
parameter deletion and reserialization, host lower-casing, trailing-slash
stripping) and sends inputs outside this fragment (no `://`, empty host, or
embedded whitespace, which the real parser percent-encodes or rejects) to
the same fail-open fallback branch the source has.  Redis is modelled as
explicit state: a sorted set as a list of (score, member) pairs with unique
members, and the two dedup sets as lists used as sets.
-/

/-! ## JavaScript string primitives -/

/-- Whitespace characters recognised by the model (ASCII subset of the
JavaScript `\s` class / `String.prototype.trim`). -/
def wsChar (c : Char) : Bool :=
  c = ' ' || c = '\t' || c = '\n' || c = '\r'

/-- ASCII lower-casing of one character, as `String.prototype.toLowerCase`
acts on the ASCII range (and exactly as core `Char.toLower` computes). -/
def lowChar (c : Char) : Char :=
  if 65 ≤ c.toNat ∧ c.toNat ≤ 90 then Char.ofNat (c.toNat + 32) else c

/-- ASCII upper-casing of one character. -/
def upChar (c : Char) : Char := c.toUpper

/-- Model of `String.prototype.toLowerCase` (ASCII range). -/
def jsLower (s : String) : String := String.mk (s.data.map lowChar)

/-- Model of `String.prototype.toUpperCase` (ASCII range). -/
def jsUpper (s : String) : String := String.mk (s.data.map upChar)

/-- Trim on character lists: drop leading and trailing whitespace. -/
def trimCL (cs : List Char) : List Char :=
  ((cs.dropWhile wsChar).reverse.dropWhile wsChar).reverse

/-- Model of `String.prototype.trim`. -/
def jsTrim (s : String) : String := String.mk (trimCL s.data)

/-- Does `pre` occur at the start of `l`? -/
def startsWithCL (l pre : List Char) : Bool := pre.isPrefixOf l

/-- Substring search: does `needle` occur anywhere in `hay`?  Models
`String.prototype.includes`. -/
def containsSub (hay needle : List Char) : Bool :=
  match hay with
  | [] => needle.isEmpty
  | _ :: t => needle.isPrefixOf hay || containsSub t needle

/-- Model of `String.prototype.includes`. -/
def jsIncludes (s sub : String) : Bool := containsSub s.data sub.data

/-- Model of `String.prototype.startsWith`. -/
def jsStartsWith (s pre : String) : Bool := startsWithCL s.data pre.data

/-- Model of `String.prototype.endsWith`. -/
def jsEndsWith (s suf : String) : Bool := suf.data.reverse.isPrefixOf s.data.reverse

/-- Split a character list at every occurrence of the separator character.
Empty segments are kept, matching `"a&&b".split("&") == ["a","","b"]` and
`"".split("&") == [""]`. -/
def splitOnCharCL (sep : Char) (cs : List Char) : List (List Char) :=
  match cs with
  | [] => [[]]
  | c :: rest =>
    match splitOnCharCL sep rest with
    | [] => [[]]
    | s :: ss => if c = sep then [] :: s :: ss else (c :: s) :: ss

/-- Model of `String.prototype.split` with a one-character separator. -/
def jsSplitChar (sep : Char) (s : String) : List String :=
  (splitOnCharCL sep s.data).map String.mk

mutual

/-- Accumulating worker for `splitWs`: `acc` holds the (reversed) characters
of the token being read. -/
def splitWsAux : List Char → List Char → List String
  | [], acc => [String.mk acc.reverse]
  | c :: rest, acc =>
    if wsChar c then String.mk acc.reverse :: splitWsSkip rest
    else splitWsAux rest (c :: acc)

/-- Skip the remainder of a whitespace run; the end of input after a run
contributes a trailing empty segment, as `split(/\s+/)` does. -/
def splitWsSkip : List Char → List String
  | [] => [""]
  | c :: rest => if wsChar c then splitWsSkip rest else splitWsAux rest [c]

end

/-- Split at every maximal whitespace run, as `split(/\s+/)` does: a leading
run contributes a leading empty segment and a trailing run a trailing one. -/
def splitWs (s : String) : List String := splitWsAux s.data []

/-- First truthy string of a chain, modelling JavaScript `a || b || ...`
on optional string fields (both `undefined` and `""` are falsy). -/
def firstTruthy : List (Option String) → String
  | [] => ""
  | none :: rest => firstTruthy rest
  | some s :: rest => if s = "" then firstTruthy rest else s

/-! ## WHATWG URL model -/

namespace UrlM

/-- Characters allowed in a scheme after the leading letter. -/
def schemeChar (c : Char) : Bool :=
  c.isAlpha || c.isDigit || c = '+' || c = '-' || c = '.'

/-- Characters that terminate the authority component. -/
def hostEnd (c : Char) : Bool := c = '/' || c = '?' || c = '#'

/-- Characters that terminate the path component. -/
def pathEnd (c : Char) : Bool := c = '?' || c = '#'

/-- A parsed hierarchical URL.  `query`/`frag` are `none` when the `?`/`#`
delimiter is absent; `some []` when present but empty. -/
@[ext]
structure URLRec where
  scheme : List Char
  host : List Char
  path : List Char
  query : Option (List Char)
  frag : Option (List Char)
deriving DecidableEq

/-- Serializer for the model, as `URL.prototype.toString`. -/
def toStr (u : URLRec) : List Char :=
  u.scheme ++ ':' :: '/' :: '/' :: u.host ++ u.path ++
    (match u.query with | none => [] | some q => '?' :: q) ++
    (match u.frag with | none => [] | some f => '#' :: f)

/-- Core parser (input already trimmed).  Recognises
`scheme://host[/path][?query][#frag]`; a missing path serializes as `/`.
Inputs containing whitespace are rejected (the real parser percent-encodes
or rejects them; the model sends them to the caller's fallback branch).
The record stores the components as written; the `hostname` accessor
below yields the lower-cased host the WHATWG parser stores (the callers'
explicit `.toLowerCase()` steps make the remaining difference — an
upper-case *scheme* — unobservable to every claim).
The parser is written in stages (scheme, authority, path, query/fragment)
so that each stage has its own equations; the composition is the single
parsing pass the `new URL(...)` call performs. -/
def fragAfter : List Char → Option (List Char)
  | '#' :: f => some f
  | _ => none

/-- Query/fragment stage: what follows the path. -/
def parseQF : List Char → Option (List Char) × Option (List Char)
  | '?' :: r5 =>
    (some (r5.takeWhile (fun c => c ≠ '#')),
      fragAfter (r5.dropWhile (fun c => c ≠ '#')))
  | '#' :: f => (none, some f)
  | _ => (none, none)

/-- Path stage: the path runs to the first `?` or `#`; a missing path
becomes `/`. -/
def parsePath (sch host r3 : List Char) : Option URLRec :=
  some { scheme := sch, host := host,
         path := if (r3.takeWhile (fun c => !pathEnd c)).isEmpty then ['/']
           else r3.takeWhile (fun c => !pathEnd c),
         query := (parseQF (r3.dropWhile (fun c => !pathEnd c))).1,
         frag := (parseQF (r3.dropWhile (fun c => !pathEnd c))).2 }

/-- Authority stage: the host runs to the first `/`, `?` or `#` and must
be non-empty. -/
def parseAuthority (sch r2 : List Char) : Option URLRec :=
  if (r2.takeWhile (fun c => !hostEnd c)).isEmpty then none
  else parsePath sch (r2.takeWhile (fun c => !hostEnd c))
    (r2.dropWhile (fun c => !hostEnd c))

/-- Scheme stage: everything up to the first `:`, which must be followed
by `//`; the scheme must be a non-empty run of scheme characters starting
with a letter. -/
def parseScheme (sch rest : List Char) : Option URLRec :=
  match rest with
  | ':' :: '/' :: '/' :: r2 =>
    if sch.isEmpty then none
    else if !sch.all schemeChar then none
    else if !(sch.headD 'a').isAlpha then none
    else parseAuthority sch r2
  | _ => none

def parseCore (cs : List Char) : Option URLRec :=
  if cs.any wsChar then none
  else parseScheme (cs.takeWhile (fun c => c ≠ ':'))
    (cs.dropWhile (fun c => c ≠ ':'))

/-- Full parser: the WHATWG parser first strips surrounding whitespace. -/
def parse (s : String) : Option URLRec := parseCore (trimCL s.data)

/-- The `hostname` property of a parsed URL: the parser stores the host
lower-cased. -/
def hostname (u : URLRec) : List Char := u.host.map lowChar

/-- Split a raw query string into key/value pairs, as the `URLSearchParams`
constructor: split on `&`, skip empty segments, split each segment at its
first `=` (a segment without `=` gets value `""`). -/
def pairsOf (q : List Char) : List (List Char × List Char) :=
  ((splitOnCharCL '&' q).filter (fun seg => !seg.isEmpty)).map fun seg =>
    (seg.takeWhile (fun c => c ≠ '='),
      match seg.dropWhile (fun c => c ≠ '=') with
      | '=' :: v => v
      | _ => [])

/-- Serialize key/value pairs back to a query string, as `URLSearchParams`
serialization: every pair is written `k=v` and pairs are joined with `&`. -/
def serializePairs : List (List Char × List Char) → List Char
  | [] => []
  | [kv] => kv.1 ++ '=' :: kv.2
  | kv :: rest => kv.1 ++ '=' :: kv.2 ++ '&' :: serializePairs rest

/-- Drop the final `/` if present, as the last step of `normalizeUrl`. -/
def stripSlash (cs : List Char) : List Char :=
  if cs.getLast? = some '/' then cs.dropLast else cs

end UrlM

/-! ## api/collect.js -/

namespace Collect

open UrlM

/-- Tracking query parameters deleted by `normalizeUrl` (collect.js line 76). -/
def trackingParams : List String :=
  ["utm_source", "utm_medium", "utm_campaign", "utm_term", "utm_content",
   "utm_id", "mc_cid", "mc_eid", "ref", "fbclid", "gclid", "igshid"]

/-- Effect of the twelve `searchParams.delete` calls followed by the
empty-query collapse (collect.js lines 76-78): parse the query into pairs,
drop the tracking keys, and reserialize; calling `delete` reserializes the
query even when nothing matched, and a query left without pairs becomes
absent. -/
def cleanQuery (q : Option (List Char)) : Option (List Char) :=
  let ps := (match q with | none => [] | some q => pairsOf q).filter
    (fun kv => !(trackingParams.map String.data).contains kv.1)
  if ps.isEmpty then none else some (serializePairs ps)

/-- Model of `normalizeUrl` (collect.js lines 72-86): clear the fragment,
delete tracking parameters, collapse an empty query, lower-case the host,
serialize, and strip one trailing slash; unparsable input falls back to the
trimmed raw string. -/
def normalizeUrl (u : String) : String :=
  match parse u with
  | none => jsTrim u
  | some url =>
    let url := { url with frag := none }
    let url := { url with query := cleanQuery url.query }
    let url := { url with host := url.host.map lowChar }
    String.mk (stripSlash (toStr url))

end Collect

/-! ## Redis model

The three producers share a sorted set `mentions:z` and two plain sets
`mentions:seen` / `mentions:seen:canon`.  A sorted set is a list of
(score, member) pairs whose members are unique; `ZADD` updates the score
when the member is already present and appends otherwise; `SADD` returns
the number of members actually added (1 or 0);
`ZREMRANGEBYSCORE key -inf max` removes every entry of score ≤ max
(both bounds inclusive); `ZRANGE ... BYSCORE` is an inclusive range query. -/

/-- State of the three Redis keys used by the pipeline. -/
structure StoreState where
  zset : List (Int × String)
  seenId : List String
  seenLink : List String
deriving DecidableEq

/-- Model of `SADD key x`: returns the updated set and 1 when `x` was new,
0 when it was already present. -/
def saddL (s : List String) (x : String) : List String × Nat :=
  if x ∈ s then (s, 0) else (s ++ [x], 1)

/-- Model of `ZADD key score member`. -/
def zadd (z : List (Int × String)) (score : Int) (member : String) :
    List (Int × String) :=
  if z.any (fun p => p.2 = member) then
    z.map (fun p => if p.2 = member then (score, member) else p)
  else z ++ [(score, member)]

/-- Model of `ZREMRANGEBYSCORE key -inf maxScore`. -/
def zremrangebyscore (z : List (Int × String)) (maxScore : Int) :
    List (Int × String) :=
  z.filter (fun p => maxScore < p.1)

/-- Model of `ZRANGE key minScore +inf BYSCORE`. -/
def zrangeFrom (z : List (Int × String)) (minScore : Int) : List String :=
  (z.filter (fun p => minScore ≤ p.1)).map (fun p => p.2)

/-- Model of `ZRANGE key lo hi BYSCORE` (inclusive bounds), the read used by
the dashboard/chat endpoints. -/
def rangeByScore (z : List (Int × String)) (lo hi : Int) : List String :=
  (z.filter (fun p => lo ≤ p.1 && p.1 ≤ hi)).map (fun p => p.2)

namespace Collect

open UrlM

/-- Shape of the `link` field of a feed item: absent, a plain string, an
object carrying an `href`, or an array whose first element may carry an
`href`. -/
inductive LinkField
  | missing
  | str (s : String)
  | obj (href : Option String)
  | arr (firstHref : Option String)
deriving DecidableEq

/-- Model of `hostOf` (collect.js line 87): hostname of a parsable URL,
`""` otherwise.  The model's parser lower-cases the host as the WHATWG
parser does, matching the explicit `.toLowerCase()` in the source. -/
def hostOf (u : String) : String :=
  match parse u with
  | some r => String.mk ((hostname r).map lowChar)
  | none => ""

/-- Model of `normalizeHost` (collect.js line 88): lower-case, then strip
one leading `www.`, then one leading `amp.`. -/
def normalizeHost (h : String) : String :=
  let l := jsLower h
  let l := if jsStartsWith l "www." then String.mk (l.data.drop 4) else l
  if jsStartsWith l "amp." then String.mk (l.data.drop 4) else l

/-- Value of the first query parameter named `key`, as
`URLSearchParams.get` (`none` models JavaScript `null`). -/
def getParam (q : Option (List Char)) (key : String) : Option String :=
  match q with
  | none => none
  | some q => ((pairsOf q).find? (fun kv => kv.1 = key.data)).map
      (fun kv => String.mk kv.2)

/-- Model of `unwrapGoogleAlert` (collect.js lines 89-97): a
`google.com/url` redirect wrapper is unwrapped to its `q` (or `url`) query
parameter; anything else, including unparsable input, is returned as is. -/
def unwrapGoogleAlert (u : String) : String :=
  match parse u with
  | none => u
  | some r =>
    if jsEndsWith (String.mk (hostname r)) "google.com" && String.mk r.path = "/url" then
      let v := firstTruthy [getParam r.query "q", getParam r.query "url"]
      if v = "" then u else v
    else u

/-- Model of `displaySource` (collect.js line 98). -/
def displaySource (link fallback : String) : String :=
  let h := normalizeHost (hostOf link)
  if h = "" then fallback else h

/-- Case-insensitive test for the `/^https?:\/\//i` scheme check. -/
def startsWithHttp (s : String) : Bool :=
  jsStartsWith (jsLower s) "http://" || jsStartsWith (jsLower s) "https://"

/-- Characters allowed in an 11-character YouTube video id. -/
def ytIdChar (c : Char) : Bool :=
  c.isAlpha || c.isDigit || c = '_' || c = '-'

/-- Model of `buildYouTubeWatchUrl` (collect.js lines 99-104). -/
def buildYouTubeWatchUrl (s : String) : String :=
  let s := jsTrim s
  if startsWithHttp s then s
  else if s.length = 11 && s.data.all ytIdChar then
    "https://www.youtube.com/watch?v=" ++ s
  else s

/-- Characters of `cs` before the first occurrence of `marker`, giving the
second element of `s.split(marker)`. -/
def takeUntilSub (marker : List Char) : List Char → List Char
  | [] => []
  | c :: t => if marker.isPrefixOf (c :: t) then [] else c :: takeUntilSub marker t

/-- An RSS item as the `rss-parser` library hands it to the handler; only
shapes the source inspects are modelled.  `parsedDate` models the result of
`Date.parse` on the first present date field (`isoDate`/`pubDate`/
`published`/`updated`), already divided by 1000 and floored. -/
structure RssItem where
  title : Option String := none
  linkField : LinkField := .missing
  linksFirstHref : Option String := none
  idField : Option String := none
  ytVideoId : Option String := none
  videoId : Option String := none
  mediaDescription : Option String := none
  mediaGroupDescription : Option String := none
  mediaContentDescription : Option String := none
  contentSnippet : Option String := none
  content : Option String := none
  summaryField : Option String := none
  parsedDate : Option Int := none
deriving DecidableEq

/-- Model of `extractItemLink` (collect.js lines 105-126), including the
falsy-chaining of the raw candidates, Google-Alert unwrapping and the
YouTube link synthesis. -/
def extractItemLink (e : RssItem) : String :=
  let raw : String :=
    if (match e.linkField with | .obj (some h) => h != "" | _ => false) then
      match e.linkField with | .obj (some h) => h | _ => ""
    else if (match e.linkField with | .arr (some h) => h != "" | _ => false) then
      match e.linkField with | .arr (some h) => h | _ => ""
    else if (match e.linksFirstHref with | some h => h != "" | none => false) then
      e.linksFirstHref.getD ""
    else
      let s := match e.linkField with | .str s => s | _ => ""
      if s ≠ "" then s else e.idField.getD ""
  let raw := unwrapGoogleAlert raw
  let ytId := firstTruthy [e.ytVideoId, e.videoId]
  let ytId :=
    if ytId ≠ "" then ytId
    else match e.idField with
      | some i => if jsStartsWith i "yt:video:" then
          String.mk (takeUntilSub "yt:video:".data (i.data.drop 9)) else ""
      | none => ""
  let raw :=
    if !startsWithHttp raw && ytId ≠ "" then buildYouTubeWatchUrl ytId
    else
      let h := hostOf raw
      if jsIncludes h "youtube.com" || jsIncludes h "youtu.be" then
        buildYouTubeWatchUrl raw
      else raw
  jsTrim raw

/-- The 32-bit string hash shared (verbatim) by the three producers:
`h = (h*31 + charCodeAt(i)) >>> 0` starting from 0. -/
def hash31 (c : String) : Nat :=
  c.data.foldl (fun h ch => (h * 31 + ch.toNat) % 4294967296) 0

/-- Model of `idFromCanonical` (collect.js line 127): the hash in lowercase
hexadecimal behind an `m_` tag. -/
def idFromCanonical (c : String) : String :=
  "m_" ++ String.mk (Nat.toDigits 16 (hash31 c))

/-- Model of `toEpoch` (collect.js line 128): `parsed` is the `Date.parse`
result in epoch seconds when the date was parsable, and the current time is
the fallback. -/
def toEpoch (parsed : Option Int) (now : Int) : Int := parsed.getD now

/-- The apostrophe character (kept out of string literals). -/
def apos : Char := Char.ofNat 39

/-- Wire-service markers of `isPressRelease` (collect.js lines 133-137). -/
def pressReleaseKeywords : List String :=
  ["prnewswire", "pr newswire", "business wire", "businesswire",
   "pr web", "prweb", "globenewswire", "globe newswire",
   "accesswire", "press release", "news release"]

/-- Model of `isPressRelease` (collect.js lines 131-139). -/
def isPressRelease (title summary source : String) : Bool :=
  let text := jsLower (title ++ " " ++ summary ++ " " ++ source)
  pressReleaseKeywords.any (fun k => jsIncludes text k)

/-- Stop words of `normalizeText` (collect.js line 143). -/
def stopWords : List String :=
  ["the", "a", "an", "and", "or", "but", "in", "on", "at", "to", "for",
   "of", "with", "by", "from", "as", "is", "was", "are", "were", "been",
   "be", "has", "have", "had", "will", "would", "could", "should", "may",
   "might", "must", "can"]

/-- ASCII `\w` class: letters, digits and underscore. -/
def wordChar (c : Char) : Bool := c.isAlpha || c.isDigit || c = '_'

/-- Join with single spaces, as `Array.prototype.join` with a space. -/
def joinSpace : List String → String
  | [] => ""
  | [x] => x
  | x :: xs => x ++ " " ++ joinSpace xs

/-- Model of `normalizeText` (collect.js lines 142-151): lower-case, map
non-word non-space characters to spaces, split on whitespace runs, keep
words longer than three characters that are not stop words, join back. -/
def normalizeText (text : String) : String :=
  joinSpace
    (((splitWs (String.mk ((jsLower text).data.map
        (fun c => if wordChar c || wsChar c then c else ' ')))).filter
      (fun w => decide (3 < w.length) && !stopWords.contains w)))

/-- Distinct-token set of a single-space split (`new Set(text.split(' '))`,
collect.js lines 155-156). -/
def tokenSet (text : String) : Finset String := (jsSplitChar ' ' text).toFinset

/-- The intersection as the source computes it (line 158): the members of
the first set that the second contains. -/
def interSet (text1 text2 : String) : Finset String :=
  (tokenSet text1).filter (fun x => x ∈ tokenSet text2)

/-- The union as the source computes it (line 159). -/
def unionSet (text1 text2 : String) : Finset String :=
  ((jsSplitChar ' ' text1) ++ (jsSplitChar ' ' text2)).toFinset

/-- Model of `textSimilarity` (collect.js lines 154-162): Jaccard quotient
of the distinct-token sets of a single-space split.  JavaScript number
division is modelled in `ℚ`; the quotients that arise are small ratios on
which IEEE double division and the 0.6 comparison are exact. -/
def textSimilarity (text1 text2 : String) : ℚ :=
  ((interSet text1 text2).card : ℚ) / ((unionSet text1 text2).card : ℚ)

/-- The comparison `textSimilarity(...) >= 0.6` of collect.js line 184,
realized integrally (the union is never empty, so the cross-multiplied
form is the same predicate; `textSimilarity_ge_iff` below proves it). -/
def simAtLeast60 (text1 text2 : String) : Bool :=
  6 * (unionSet text1 text2).card ≤ 10 * (interSet text1 text2).card

/-- The deserialized view of a stored article that `isDuplicateStory` reads
back out of the sorted set (`JSON.parse` of a member). -/
structure ArticleRec where
  origin : String
  title : String
  summary : Option String := none
deriving DecidableEq

/-- Model of `isDuplicateStory` (collect.js lines 165-198): scan the
members of the last 48 hours, deserialize each (a failing parse is
skipped, which the `deser` oracle models by returning `none`), and report
a duplicate on the first same-origin article whose normalized content is
at least 60% similar. -/
def isDuplicateStory (deser : String → Option ArticleRec)
    (z : List (Int × String)) (now : Int)
    (title summary origin : String) : Bool :=
  let normalizedContent := normalizeText (title ++ " " ++ summary)
  let twoDaysAgo := now - 48 * 60 * 60
  (zrangeFrom z twoDaysAgo).any fun s =>
    match deser s with
    | none => false
    | some article =>
      article.origin == origin &&
      simAtLeast60 normalizedContent
        (normalizeText (article.title ++ " " ++ article.summary.getD ""))

/-- Positive sentiment markers (collect.js line 200). -/
def posWords : List String :=
  ["win", "surge", "rally", "gain", "positive", "bull", "record",
   "secure", "approve", "partnership"]

/-- Negative sentiment markers (collect.js line 201). -/
def negWords : List String :=
  ["hack", "breach", "lawsuit", "fine", "down", "drop", "negative",
   "bear", "investigate", "halt", "outage", "delay", "ban"]

/-- Model of `sentimentScore` (collect.js lines 202-208). -/
def sentimentScore (text : String) : Int :=
  let t := jsLower text
  ((posWords.filter (fun w => jsIncludes t w)).length : Int) -
    ((negWords.filter (fun w => jsIncludes t w)).length : Int)

/-! ### shouldFilterArticle (collect.js lines 225-480) -/

/-- Syndicated earnings-snapshot titles (lines 232-234); matched
case-sensitively against the raw title. -/
def earningsSnapshotMarkers : List String :=
  ["Earnings Snapshot", "Q3 Earnings Snapshot", "Q4 Earnings Snapshot",
   "Q1 Earnings Snapshot", "Q2 Earnings Snapshot"]

/-- Universal filter: syndicated earnings snapshots. -/
def hasEarningsSnapshot (title : String) : Bool :=
  earningsSnapshotMarkers.any (fun k => jsIncludes title k)

/-- Opinion/editorial title markers (lines 240-245). -/
def opinionIndicators : List String :=
  ["opinion:", "op-ed:", "commentary:", "editorial:", "column:",
   "guest column", "my view:", "viewpoint:", "perspective:",
   "letter to", "letters:", "i believe", "in my opinion",
   "we need to", "it" ++ String.mk [apos] ++ "s time to",
   "why we should", "why we must"]

/-- Opinion URL path segments (line 246). -/
def opinionUrlPatterns : List String :=
  ["/opinion/", "/commentary/", "/op-ed/", "/editorial/", "/columns/"]

/-- Universal filter: opinion marker in the lower-cased title. -/
def hasOpinionMarker (titleLower : String) : Bool :=
  opinionIndicators.any (fun k => jsIncludes titleLower k)

/-- Universal filter: opinion path segment in the link (line 249). -/
def isOpinionUrl (link : String) : Bool :=
  link != "" && opinionUrlPatterns.any (fun p => jsIncludes (jsLower link) p)

/-- Shopping/promo keywords (lines 257-262). -/
def shoppingKeywords : List String :=
  ["on sale for", "buy now and save", "limited time offer",
   "shop the collection", "shop now", "save up to",
   "discount code", "promo code", "coupon code",
   "free shipping", "best deals", "price drop"]

/-- Universal filter: shopping keywords in the text. -/
def hasShopping (text : String) : Bool :=
  shoppingKeywords.any (fun k => jsIncludes text k)

/-- Scan for a dollar sign immediately followed by a digit, the observable
of the `/\$\d+(\.\d{2})?/` test (line 263). -/
def hasPriceCL : List Char → Bool
  | [] => false
  | c :: rest =>
    (c = '$' && (match rest with | d :: _ => d.isDigit | [] => false)) ||
      hasPriceCL rest

/-- Universal filter: currency amount in the lower-cased title. -/
def hasPriceInTitle (titleLower : String) : Bool := hasPriceCL titleLower.data

/-- Stock/market keywords (lines 272-281). -/
def stockPriceKeywords : List String :=
  ["stock price", "share price", "stock rises", "stock falls", "stock drops",
   "shares rise", "shares fall", "shares drop", "stock jumps", "stock climbs",
   "trading at", "trades at", "market cap", "stock market", "wall street",
   "stock analyst", "price target", "earnings per share", "eps", "stock ticker",
   "nasdaq", "nyse", "dow jones", "stock rallies", "stock plunges",
   "investors", "shareholders", "stock performance", "quarterly earnings",
   "stock rating", "buy rating", "sell rating", "hold rating",
   "pre-market", "after-hours trading", "stock watch", "market watch"]

/-- Universal filter: stock keywords in the text. -/
def hasStockKeywords (text : String) : Bool :=
  stockPriceKeywords.any (fun k => jsIncludes text k)

/-- Stock-movement title phrases (lines 284-289). -/
def stockTitlePhrases : List String :=
  ["stock up", "stock down", "shares up", "shares down",
   "gains on", "drops on", "stock cheap", "stock expensive",
   "stock performs", "stock move", "stock climbs", "stock falls",
   "stock outlook", "stock forecast", "stock analysis", "stock valuation"]

/-- Universal filter: stock-movement phrasing in the lower-cased title. -/
def stockFocusedInTitle (titleLower : String) : Bool :=
  stockTitlePhrases.any (fun k => jsIncludes titleLower k)

/-- Financial news sources (lines 292-295). -/
def financialSources : List String :=
  ["morningstar", "seekingalpha", "marketwatch", "barrons",
   "motley fool", "zacks", "tipranks", "gurufocus"]

/-- Financial-source test (line 298). -/
def isFinancialSource (source : String) : Bool :=
  source != "" && financialSources.any (fun k => jsIncludes (jsLower source) k)

/-- Delta incident keywords (lines 309-314). -/
def deltaIncidentKeywords : List String :=
  ["incident", "crash", "emergency", "accident", "diverted", "grounded",
   "delayed", "cancellation", "mechanical issue", "safety concern",
   "investigation", "turbulence", "forced landing", "engine failure",
   "medical emergency", "unruly passenger"]

/-- Delta route keywords (lines 316-325). -/
def deltaRouteKeywords : List String :=
  ["new route", "adds service", "launches flight", "new destination",
   "expands service", "adds flight", "inaugural flight", "direct flight to",
   "nonstop service", "new nonstop", "will fly to", "service to",
   "announces route", "route from", "route to", "flights to",
   "flights from", "adding flights", "new flights", "begins service",
   "starts service", "route expansion", "flight schedule", "new service to",
   "increases flights", "increases service", "adds daily flight",
   "cuts service", "ends operations at", "exits market", "suspends flights"]

/-- Airport/TSA security keywords (lines 328-332). -/
def deltaAirportSecurityKeywords : List String :=
  ["tsa investigating", "tsa finds", "tsa discovered", "tsa checkpoint",
   "security checkpoint", "airport security", "screeners found",
   "went through security", "hazardous item", "weapon found", "security breach"]

/-- Generic airline-industry keywords (lines 335-340). -/
def deltaGenericAirlineKeywords : List String :=
  ["airlines will not have to", "airlines must", "airlines face",
   "airline industry", "aviation industry", "carriers including",
   "among airlines", "airlines like delta", "delta and other airlines",
   "major airlines", "u.s. airlines", "domestic carriers"]

/-- Generic FAA/regulatory keywords (lines 343-346). -/
def deltaFaaGenericKeywords : List String :=
  ["faa ends", "faa lifts", "faa issues", "faa requires",
   "flight restriction order", "airspace restriction", "faa rule"]

/-- Origin branch for `delta_air_lines` (lines 308-358). -/
def deltaReject (text : String) : Bool :=
  deltaIncidentKeywords.any (fun k => jsIncludes text k) ||
  deltaRouteKeywords.any (fun k => jsIncludes text k) ||
  deltaAirportSecurityKeywords.any (fun k => jsIncludes text k) ||
  deltaGenericAirlineKeywords.any (fun k => jsIncludes text k) ||
  deltaFaaGenericKeywords.any (fun k => jsIncludes text k)

/-- Albemarle geographic false positives (lines 368-373). -/
def albemarleGeographicKeywords : List String :=
  ["albemarle county", "albemarle, nc", "albemarle north carolina",
   "city of albemarle", "charlottesville", "albemarle sound",
   "albemarle road", "albemarle st", "albemarle street", "albemarle ave",
   "zoning", "rezoning", "land use", "parcel", "planning board"]

/-- Albemarle geographic test (line 375). -/
def albemarleGeographic (text : String) : Bool :=
  albemarleGeographicKeywords.any (fun k => jsIncludes text k)

/-- Albemarle corporate-identity test (lines 382-390). -/
def albemarleCorporate (text : String) : Bool :=
  jsIncludes text "corporation" ||
  jsIncludes text "corp." ||
  jsIncludes text "company" ||
  jsIncludes text "albemarle corp" ||
  jsIncludes text " alb " ||
  jsIncludes text "lithium" ||
  jsIncludes text "chemical" ||
  jsIncludes text "kings mountain" ||
  (jsIncludes text "charlotte" && jsIncludes text "based")

/-- StubHub ticket-buying-guide keywords (lines 400-415). -/
def stubhubTicketBuyingKeywords : List String :=
  ["how to get tickets", "how to buy", "where to buy tickets",
   "ticket guide", "buying guide", "purchase tickets", "get your tickets",
   "buy tickets", "tickets available", "on sale now", "tickets on sale",
   "cheapest tickets", "best way to get", "how to find tickets"]

/-- StubHub ticket-guide test (line 417). -/
def stubhubTicketGuide (text : String) : Bool :=
  stubhubTicketBuyingKeywords.any (fun k => jsIncludes text k)

/-- StubHub event-focused keywords (lines 424-452). -/
def stubhubEventFocusedKeywords : List String :=
  ["game preview", "game recap", "match preview", "match recap",
   "starting lineup", "injury report", "game day", "matchup",
   "vs.", "vs ", " v ", " @ ",
   "score", "final score", "box score", "play-by-play",
   "postgame", "pregame", "halftime", "overtime",
   "wins", "loses", "defeats", "beats", "victory", "defeated",
   "touchdown", "home run", "goal", "basket", "points scored",
   "playoff", "championship game", "world series", "super bowl",
   "nba game", "nfl game", "mlb game", "nhl game", "mls game",
   "sports event", "sporting event", "game tonight", "game tomorrow",
   "season opener", "season finale", "game highlights", "game results",
   "team wins", "team loses", "game score", "final result",
   "concert review", "concert recap", "setlist",
   "performs at", "performed at", "performance at",
   "takes the stage", "opening act", "headliner",
   "tour stops", "tour date", "concert venue",
   "live performance", "live show", "sold out show",
   "encore", "acoustic set", "concert tonight", "concert tomorrow",
   "show tonight", "show tomorrow", "music event",
   "event recap", "event review", "event highlights",
   "what happened at", "photos from", "watch highlights",
   "event coverage", "event results", "event tonight"]

/-- StubHub event-focused test (line 468). -/
def stubhubEventFocused (text : String) : Bool :=
  stubhubEventFocusedKeywords.any (fun k => jsIncludes text k)

/-- StubHub business-news override keywords (lines 456-466). -/
def stubhubBusinessKeywords : List String :=
  ["stubhub fees", "stubhub pricing", "service charge", "platform",
   "marketplace", "resale", "secondary market",
   "ticket platform", "ticket marketplace", "dynamic pricing",
   "all-in pricing", "transparency", "price guarantee",
   "ticket protection", "fanprotect", "customer service",
   "refund policy", "ticket delivery", "mobile tickets",
   "stubhub ceo", "stubhub lawsuit", "stubhub settlement",
   "stubhub acquisition", "stubhub merger", "stubhub revenue",
   "stubhub investigation", "stubhub probe", "watchdog", "antitrust"]

/-- StubHub business-news test (line 469). -/
def stubhubBusiness (text : String) : Bool :=
  stubhubBusinessKeywords.any (fun k => jsIncludes text k)

/-- Model of `shouldFilterArticle` (collect.js lines 225-480): the
universal filters in source order, then the single origin branch selected
by the origin tag; every non-reject path falls through to `false`. -/
def shouldFilterArticle (origin title summary source link : String) : Bool :=
  let text := jsLower (title ++ " " ++ summary)
  let titleLower := jsLower title
  if hasEarningsSnapshot title then true
  else if hasOpinionMarker titleLower || isOpinionUrl link then true
  else if hasShopping text || hasPriceInTitle titleLower then true
  else if hasStockKeywords text || stockFocusedInTitle titleLower ||
      (hasStockKeywords text && isFinancialSource source) then true
  else if origin = "delta_air_lines" && deltaReject text then true
  else if origin = "guardant_health" then false
  else if origin = "albemarle" && albemarleGeographic text then true
  else if origin = "albemarle" && !albemarleCorporate text then true
  else if origin = "stubhub" && stubhubTicketGuide text then true
  else if origin = "stubhub" &&
      (stubhubEventFocused text && !stubhubBusiness text) then true
  else false

/-! ### The per-item pipeline of the handler (collect.js lines 512-583) -/

/-- A stored Mention record (collect.js lines 562-573).  `sectionLabel`
renders the reserved word `section`. -/
structure Mention where
  id : String
  canon : String
  sectionLabel : String
  title : String
  link : String
  source : String
  summary : String
  origin : String
  published_ts : Int
  published : String
  sentiment : Option Int := none
deriving DecidableEq

/-- Placeholder injective rendering of
`new Date(ts*1000).toISOString()`; no claim depends on the ISO text. -/
def isoOfTs (ts : Int) : String := "iso(" ++ toString ts ++ ")"

/-- Stands for `JSON.stringify` of a Mention: the fields in source order in
a flat tagged rendering (quotes and braces elided); distinct field values
give distinct member strings, which is all the development relies on. -/
def serializeMention (m : Mention) : String :=
  "id=" ++ m.id ++ ";canon=" ++ m.canon ++ ";section=" ++ m.sectionLabel ++
  ";title=" ++ m.title ++ ";link=" ++ m.link ++ ";source=" ++ m.source ++
  ";summary=" ++ m.summary ++ ";origin=" ++ m.origin ++
  ";published_ts=" ++ toString m.published_ts ++
  ";published=" ++ m.published ++
  (match m.sentiment with | none => "" | some n => ";sentiment=" ++ toString n)

/-- The Mention the handler builds (collect.js lines 562-575). -/
def builtMention (mid canon sectionLabel title link source summary origin :
    String) (ts : Int) (enableSentiment : Bool) : Mention :=
  { id := mid, canon := canon, sectionLabel := sectionLabel,
    title := if title = "" then "(untitled)" else title,
    link := link, source := source, summary := summary, origin := origin,
    published_ts := ts, published := isoOfTs ts,
    sentiment := if enableSentiment then
      some (sentimentScore (title ++ " " ++ summary)) else none }

/-- The insertion step shared by collect.js (lines 551-576) and
law360_collect.js (lines 132-165): add the canonical URL to the exact-URL
set and stop if it was already present; otherwise add the id to the
exact-id set and the serialized Mention to the sorted set at the published
timestamp.  The Bool is `true` exactly when the Mention was stored. -/
def insertIfNew (st : StoreState) (canon mid member : String) (ts : Int) :
    StoreState × Bool :=
  let r := saddL st.seenLink canon
  if r.2 ≠ 1 then ({ st with seenLink := r.1 }, false)
  else
    let st1 := { st with seenLink := r.1, seenId := (saddL st.seenId mid).1 }
    ({ st1 with zset := zadd st1.zset ts member }, true)

/-- Trimmed title of an item (`(e.title || "").trim()`, line 513). -/
def itemTitle (e : RssItem) : String := jsTrim (e.title.getD "")

/-- Summary of an item (`ytDesc || contentSnippet || content || summary ||
""`, lines 514-515). -/
def itemSummary (e : RssItem) : String :=
  firstTruthy [e.mediaDescription, e.mediaGroupDescription,
    e.mediaContentDescription, e.contentSnippet, e.content, e.summaryField]

/-- Outcome of processing one feed item. -/
inductive ItemResult
  | skippedPressRelease
  | skippedBlockedDomain
  | skippedInternational
  | skippedFiltered
  | skippedDuplicate
  | skippedEmptyCanon
  | skippedSeen
  | storedItem
deriving DecidableEq

/-- Model of the per-item body of the handler loop (collect.js lines
512-583).  `blocked` and `intl` are the external predicates
`isBlockedDomain` and `isInternationalArticle` (their modules are not part
of this repository); `deser` models `JSON.parse` on stored members;
`now` is the clock read by `Date.now()`. -/
def processItem (blocked : String → Bool)
    (intl : String → String → String → String → Bool)
    (deser : String → Option ArticleRec) (enableSentiment : Bool)
    (origin sectionLabel feedTitle : String) (e : RssItem)
    (st : StoreState) (now : Int) : ItemResult × StoreState :=
  let title := itemTitle e
  let sum := itemSummary e
  let link := extractItemLink e
  let source := displaySource link feedTitle
  if isPressRelease title sum source then (.skippedPressRelease, st)
  else if blocked link then (.skippedBlockedDomain, st)
  else if intl title sum link source then (.skippedInternational, st)
  else if shouldFilterArticle origin title sum source link then
    (.skippedFiltered, st)
  else if isDuplicateStory deser st.zset now title sum origin then
    (.skippedDuplicate, st)
  else
    let canon := normalizeUrl (if link = "" then title else link)
    if canon = "" then (.skippedEmptyCanon, st)
    else
      let mid := idFromCanonical canon
      let ts := toEpoch e.parsedDate now
      let m := builtMention mid canon sectionLabel title link source sum
        origin ts enableSentiment
      let r := insertIfNew st canon mid (serializeMention m) ts
      if !r.2 then (.skippedSeen, r.1)
      else
        let cutoff := now - 14 * 24 * 60 * 60
        (.storedItem, { r.1 with zset := zremrangebyscore r.1.zset cutoff })

end Collect

/-! ## api/law360_collect.js -/

namespace Law360

open UrlM

/-- Model of `normalizeUrl` (law360_collect.js lines 40-54); the body is
identical, line for line, to the collect.js version. -/
def normalizeUrl (u : String) : String :=
  match parse u with
  | none => jsTrim u
  | some url =>
    let url := { url with frag := none }
    let url := { url with query := Collect.cleanQuery url.query }
    let url := { url with host := url.host.map lowChar }
    String.mk (stripSlash (toStr url))

/-- Model of `idFromCanonical` (law360_collect.js lines 84-88): the same
hash loop as collect.js behind a `law360_` tag. -/
def idFromCanonical (c : String) : String :=
  "law360_" ++ String.mk (Nat.toDigits 16
    (c.data.foldl (fun h ch => (h * 31 + ch.toNat) % 4294967296) 0))

end Law360

/-! ## The congress tracker (api/congress_collect.js) -/

namespace Congress

open UrlM

/-- Model of `normalizeUrl` (congress_collect.js lines 23-34): unlike the
collect.js version it clears the whole query, but only when `url.search`
is truthy — a present-but-empty query (`...?`) is left alone. -/
def normalizeUrl (u : String) : String :=
  match parse u with
  | none => jsTrim u
  | some url =>
    let url := { url with frag := none }
    let url := { url with query :=
      match url.query with
      | some q => if q.isEmpty then some q else none
      | none => none }
    String.mk (stripSlash (toStr url))

/-- Model of `idFromCanonical` (congress_collect.js lines 36-40): the same
hash loop as collect.js behind a `congress_` tag. -/
def idFromCanonical (c : String) : String :=
  "congress_" ++ String.mk (Nat.toDigits 16
    (c.data.foldl (fun h ch => (h * 31 + ch.toNat) % 4294967296) 0))

/-- One entry of `bill.actions.actions`. -/
structure Action where
  text : Option String := none
deriving DecidableEq

/-- The milestone flags (congress_collect.js lines 49-58). -/
structure Milestones where
  conference_committee : Bool := false
  conference_report_filed : Bool := false
  house_vote_scheduled : Bool := false
  house_vote_completed : Bool := false
  senate_vote_scheduled : Bool := false
  senate_vote_completed : Bool := false
  sent_to_president : Bool := false
  signed_into_law : Bool := false
deriving DecidableEq

/-- Model of `detectMilestones` (congress_collect.js lines 48-107). -/
def detectMilestones (actions : List Action) : Milestones :=
  actions.foldl
    (fun ms a =>
      let text := jsLower (a.text.getD "")
      { conference_committee := ms.conference_committee ||
          jsIncludes text "conference committee" ||
          jsIncludes text "conferees appointed",
        conference_report_filed := ms.conference_report_filed ||
          jsIncludes text "conference report filed" ||
          jsIncludes text "conference report submitted",
        house_vote_scheduled := ms.house_vote_scheduled ||
          (jsIncludes text "house" &&
            (jsIncludes text "scheduled" || jsIncludes text "rule provides")),
        house_vote_completed := ms.house_vote_completed ||
          (jsIncludes text "house" &&
            (jsIncludes text "passed" || jsIncludes text "agreed to" ||
              jsIncludes text "on passage")),
        senate_vote_scheduled := ms.senate_vote_scheduled ||
          (jsIncludes text "senate" && jsIncludes text "scheduled"),
        senate_vote_completed := ms.senate_vote_completed ||
          (jsIncludes text "senate" &&
            (jsIncludes text "passed" || jsIncludes text "agreed to")),
        sent_to_president := ms.sent_to_president ||
          jsIncludes text "presented to president" ||
          jsIncludes text "sent to president",
        signed_into_law := ms.signed_into_law ||
          jsIncludes text "signed by president" ||
          jsIncludes text "became public law" })
    {}

/-- Join with a separator, as `Array.prototype.join`. -/
def joinSep (sep : String) : List String → String
  | [] => ""
  | [x] => x
  | x :: xs => x ++ sep ++ joinSep sep xs

/-- The milestone summary lines (congress_collect.js lines 202-208). -/
def milestoneList (ms : Milestones) : List String :=
  (if ms.conference_committee then ["✓ Conference Committee"] else []) ++
  (if ms.conference_report_filed then ["✓ Conference Report Filed"] else []) ++
  (if ms.house_vote_completed then ["✓ House Vote"] else []) ++
  (if ms.senate_vote_completed then ["✓ Senate Vote"] else []) ++
  (if ms.sent_to_president then ["✓ Sent to President"] else []) ++
  (if ms.signed_into_law then ["✓ SIGNED INTO LAW"] else [])

/-- The tracked bill URL (congress_collect.js line 190, for HR 3838). -/
def billUrl : String :=
  "https://www.congress.gov/bill/119th-congress/house-bill/3838"

/-- `billId` (congress_collect.js line 171). -/
def billId : String := jsUpper "hr" ++ " " ++ "3838"

/-- The summary text (congress_collect.js lines 210-216). -/
def buildSummary (billTitle actionDate latestAction : String)
    (ms : Milestones) (amendCount : Nat) : String :=
  billTitle ++ "\n\nLatest Action (" ++ actionDate ++ "): " ++ latestAction ++
  "\n\nMilestones: " ++
  (if (milestoneList ms).length > 0 then joinSep " | " (milestoneList ms)
   else "No milestones reached yet") ++
  "\n\nAmendments: " ++ toString amendCount

/-- The Mention the tracker builds each poll (congress_collect.js lines
222-241). -/
structure CongressMention where
  id : String
  canon : String
  sectionLabel : String
  title : String
  link : String
  source : String
  matched : List String
  summary : String
  origin : String
  published_ts : Int
  published : String
  bill_number : String
  congress_number : String
  milestones : Milestones
  amendments_count : Nat
  latest_action : String
  latest_action_date : String
deriving DecidableEq

/-- Rendering of the milestone flags inside the serialized member. -/
def serializeMilestones (ms : Milestones) : String :=
  "cc=" ++ toString ms.conference_committee ++
  ",crf=" ++ toString ms.conference_report_filed ++
  ",hvs=" ++ toString ms.house_vote_scheduled ++
  ",hvc=" ++ toString ms.house_vote_completed ++
  ",svs=" ++ toString ms.senate_vote_scheduled ++
  ",svc=" ++ toString ms.senate_vote_completed ++
  ",stp=" ++ toString ms.sent_to_president ++
  ",sil=" ++ toString ms.signed_into_law

/-- Stands for `JSON.stringify` of the tracker's Mention (fields in source
order, flat tagged rendering as for collect.js). -/
def serializeCongressMention (m : CongressMention) : String :=
  "id=" ++ m.id ++ ";canon=" ++ m.canon ++ ";section=" ++ m.sectionLabel ++
  ";title=" ++ m.title ++ ";link=" ++ m.link ++ ";source=" ++ m.source ++
  ";matched=" ++ joinSep "," m.matched ++ ";summary=" ++ m.summary ++
  ";origin=" ++ m.origin ++ ";published_ts=" ++ toString m.published_ts ++
  ";published=" ++ m.published ++ ";bill_number=" ++ m.bill_number ++
  ";congress_number=" ++ m.congress_number ++
  ";milestones=" ++ serializeMilestones m.milestones ++
  ";amendments_count=" ++ toString m.amendments_count ++
  ";latest_action=" ++ m.latest_action ++
  ";latest_action_date=" ++ m.latest_action_date

/-- The Mention one poll of the tracker builds, from the bill data the
congress.gov API returned: the bill title, the latest action text and
date, the `Date.parse` of that date in epoch seconds (`ts`), the amendment
count and the action list (congress_collect.js lines 190-241). -/
def pollMention (billTitle latestAction actionDate : String) (ts : Int)
    (amendCount : Nat) (actions : List Action) : CongressMention :=
  let canon := normalizeUrl billUrl
  let ms := detectMilestones actions
  { id := idFromCanonical canon, canon := canon,
    sectionLabel := "Congress.gov",
    title := billId ++ ": " ++ billTitle,
    link := billUrl, source := "Congress.gov",
    matched := ["congress", "hr3838"],
    summary := buildSummary billTitle actionDate latestAction ms amendCount,
    origin := "congress", published_ts := ts,
    published := Collect.isoOfTs ts,
    bill_number := billId, congress_number := "119",
    milestones := ms, amendments_count := amendCount,
    latest_action := latestAction, latest_action_date := actionDate }

/-- The storage step the tracker runs every poll (congress_collect.js
lines 243-250): add the id and the canonical URL to the dedup sets
unconditionally, `ZADD` the freshly serialized Mention, then trim.  Unlike
the RSS/Law360 paths there is no check of the `SADD` result. -/
def storeStep (st : StoreState) (m : CongressMention) (cutoff : Int) :
    StoreState :=
  let st1 := { st with seenId := (saddL st.seenId m.id).1 }
  let st2 := { st1 with seenLink := (saddL st1.seenLink m.canon).1 }
  let member := serializeCongressMention m
  let st3 := { st2 with zset := zadd st2.zset m.published_ts member }
  { st3 with zset := zremrangebyscore st3.zset cutoff }

end Congress


/-- The retention trim the producers run after a successful insert
(collect.js lines 578-580, law360_collect.js lines 167-169,
congress_collect.js lines 248-250): `ZREMRANGEBYSCORE mentions:z -inf
cutoff` with `cutoff = now - RETENTION_DAYS * 24 * 60 * 60`. -/
def trimStep (st : StoreState) (cutoff : Int) : StoreState :=
  { st with zset := zremrangebyscore st.zset cutoff }

/-! ## Definitions supporting the canonicalization idempotence analysis -/

/-- The cleanup `normalizeUrl` applies to a parsed URL (collect.js lines
75-79): clear the fragment, delete tracking parameters and collapse an
empty query, lower-case the host. -/
def cleanse (r : UrlM.URLRec) : UrlM.URLRec :=
  { scheme := r.scheme, host := r.host.map lowChar, path := r.path,
    query := Collect.cleanQuery r.query, frag := none }

/-- The serialized query part: nothing when the query is absent, `?`
followed by the query otherwise. -/
def qpart : Option (List Char) → List Char
  | none => []
  | some q => '?' :: q

/-- `u` with its final path character removed and no query: the record the
reparse of a slash-stripped serialization produces when the stripped slash
ended a multi-character path. -/
def dropPathRec (u : UrlM.URLRec) : UrlM.URLRec :=
  { scheme := u.scheme, host := u.host, path := u.path.dropLast,
    query := none, frag := none }

/-- `u` with its query replaced: the record the reparse of a slash-stripped
serialization produces when the stripped slash ended the query. -/
def setQueryRec (u : UrlM.URLRec) (q : List Char) : UrlM.URLRec :=
  { scheme := u.scheme, host := u.host, path := u.path,
    query := some q, frag := none }

/-- Well-formedness of the URL records `normalizeUrl` serializes; these
invariants are established by the parser and preserved by `cleanse`. -/
structure GoodRec (u : UrlM.URLRec) : Prop where
  scheme_ne : u.scheme ≠ []
  scheme_ok : ∀ c ∈ u.scheme, UrlM.schemeChar c = true
  scheme_alpha : (u.scheme.headD 'a').isAlpha = true
  host_ne : u.host ≠ []
  host_ok : ∀ c ∈ u.host, UrlM.hostEnd c = false ∧ wsChar c = false
  path_slash : u.path.head? = some '/'
  path_ok : ∀ c ∈ u.path, UrlM.pathEnd c = false ∧ wsChar c = false
  query_ok : ∀ q ∈ u.query, ∀ c ∈ q, c ≠ '#' ∧ wsChar c = false
  frag_none : u.frag = none

/-- Well-formedness of query key/value pairs: what `pairsOf` produces on a
fragment-free whitespace-free query string, and what `serializePairs`
needs to round-trip. -/
def WfPairs (ps : List (List Char × List Char)) : Prop :=
  ∀ kv ∈ ps,
    (∀ c ∈ kv.1, c ≠ '&' ∧ c ≠ '=' ∧ c ≠ '#' ∧ wsChar c = false) ∧
    (∀ c ∈ kv.2, c ≠ '&' ∧ c ≠ '#' ∧ wsChar c = false)

/-! ## Helper lemmas -/

theorem saddL_not_mem {s : List String} {x : String} (h : x ∉ s) :
    saddL s x = (s ++ [x], 1) := by
  simp [saddL, h]

theorem saddL_mem {s : List String} {x : String} (h : x ∈ s) :
    saddL s x = (s, 0) := by
  simp [saddL, h]

theorem zadd_not_mem {z : List (Int × String)} {sc : Int} {m : String}
    (h : ∀ p ∈ z, p.2 ≠ m) : zadd z sc m = z ++ [(sc, m)] := by
  have : z.any (fun p => p.2 = m) = false := by
    simp only [List.any_eq_false]
    intro p hp
    simpa using h p hp
  simp [zadd, this]

theorem mem_zadd_self (z : List (Int × String)) (sc : Int) (m : String) :
    (sc, m) ∈ zadd z sc m := by
  unfold zadd
  by_cases h : z.any (fun p => p.2 = m) = true
  · rw [if_pos h]
    rcases List.any_eq_true.mp h with ⟨p, hp, hpm⟩
    have hpm' : p.2 = m := by simpa using hpm
    exact List.mem_map.mpr ⟨p, hp, by simp [hpm']⟩
  · rw [if_neg h]
    simp

theorem splitOnCharCL_ne_nil (sep : Char) (cs : List Char) :
    splitOnCharCL sep cs ≠ [] := by
  cases cs with
  | nil => simp [splitOnCharCL]
  | cons c rest =>
    unfold splitOnCharCL
    cases h : splitOnCharCL sep rest with
    | nil => simp
    | cons s ss =>
      by_cases hc : c = sep <;> simp [hc]

theorem jsSplitChar_ne_nil (sep : Char) (s : String) :
    jsSplitChar sep s ≠ [] := by
  unfold jsSplitChar
  simp [splitOnCharCL_ne_nil]

theorem interSet_eq (a b : String) :
    Collect.interSet a b = Collect.tokenSet a ∩ Collect.tokenSet b := by
  simp [Collect.interSet, Finset.filter_mem_eq_inter]

theorem unionSet_eq (a b : String) :
    Collect.unionSet a b = Collect.tokenSet a ∪ Collect.tokenSet b := by
  simp [Collect.unionSet, Collect.tokenSet]

theorem tokenSet_nonempty (t : String) : (Collect.tokenSet t).Nonempty := by
  cases hh : jsSplitChar ' ' t with
  | nil => exact absurd hh (jsSplitChar_ne_nil ' ' t)
  | cons x xs => exact ⟨x, by simp [Collect.tokenSet, hh]⟩

theorem unionSet_card_pos (a b : String) : 0 < (Collect.unionSet a b).card := by
  rw [unionSet_eq]
  exact Finset.card_pos.mpr
    ((tokenSet_nonempty a).mono Finset.subset_union_left)

theorem interSet_subset_unionSet (a b : String) :
    Collect.interSet a b ⊆ Collect.unionSet a b := by
  rw [interSet_eq, unionSet_eq]
  exact Finset.inter_subset_left.trans Finset.subset_union_left

/-- The integral threshold test used in `isDuplicateStory` is the same
predicate as the source's `textSimilarity(...) >= 0.6`. -/
theorem simAtLeast60_iff (a b : String) :
    Collect.simAtLeast60 a b = true ↔
      (6 : ℚ) / 10 ≤ Collect.textSimilarity a b := by
  have hu : (0 : ℚ) < ((Collect.unionSet a b).card : ℚ) := by
    exact_mod_cast unionSet_card_pos a b
  unfold Collect.simAtLeast60 Collect.textSimilarity
  rw [decide_eq_true_eq, div_le_div_iff (by norm_num) hu]
  constructor
  · intro h
    have h2 : ((6 * (Collect.unionSet a b).card : Nat) : ℚ) ≤
        ((10 * (Collect.interSet a b).card : Nat) : ℚ) := by exact_mod_cast h
    push_cast at h2
    linarith
  · intro h
    have h2 : ((6 * (Collect.unionSet a b).card : Nat) : ℚ) ≤
        ((10 * (Collect.interSet a b).card : Nat) : ℚ) := by
      push_cast
      linarith
    exact_mod_cast h2

/-! ## Claim C2 -/

/-- C2: the insertion step is an idempotent insert-if-new.  When the
canonical URL is fresh, the dedup-set add returns 1, the serialized
Mention is appended to the sorted set at score `ts`, and the id is added
to the exact-id set; a second call with the same canonical URL (whatever
id, member and score it carries) returns `inserted = false` and leaves
the sorted set and both dedup sets exactly as the first call left them. -/
theorem insertIfNew_insert_then_skip (st : StoreState)
    (canon mid member mid2 member2 : String) (ts ts2 : Int)
    (hfresh : canon ∉ st.seenLink) (hmem : ∀ p ∈ st.zset, p.2 ≠ member) :
    (saddL st.seenLink canon).2 = 1 ∧
    Collect.insertIfNew st canon mid member ts =
      ({ zset := st.zset ++ [(ts, member)],
         seenId := (saddL st.seenId mid).1,
         seenLink := st.seenLink ++ [canon] }, true) ∧
    (saddL (st.seenLink ++ [canon]) canon).2 = 0 ∧
    Collect.insertIfNew (Collect.insertIfNew st canon mid member ts).1 canon
      mid2 member2 ts2 = ((Collect.insertIfNew st canon mid member ts).1, false) := by
  have h1 := saddL_not_mem hfresh
  have h2 : canon ∈ st.seenLink ++ [canon] := by simp
  have hstep : Collect.insertIfNew st canon mid member ts =
      ({ zset := st.zset ++ [(ts, member)],
         seenId := (saddL st.seenId mid).1,
         seenLink := st.seenLink ++ [canon] }, true) := by
    unfold Collect.insertIfNew
    rw [h1]
    simp [zadd_not_mem hmem]
  refine ⟨by rw [h1], hstep, by rw [saddL_mem h2], ?_⟩
  rw [hstep]
  unfold Collect.insertIfNew
  rw [saddL_mem h2]
  simp

/-- Witness for C2 at a concrete input: an empty store, then two inserts
of the same canonical URL. -/
theorem insertIfNew_insert_then_skip_witness :
    ("https://a.com/x" ∉ (⟨[], [], []⟩ : StoreState).seenLink) ∧
    (∀ p ∈ (⟨[], [], []⟩ : StoreState).zset, p.2 ≠ "member0") ∧
    ((saddL (⟨[], [], []⟩ : StoreState).seenLink "https://a.com/x").2 = 1 ∧
     Collect.insertIfNew ⟨[], [], []⟩ "https://a.com/x" "m_1" "member0" 5 =
       ({ zset := (⟨[], [], []⟩ : StoreState).zset ++ [(5, "member0")],
          seenId := (saddL (⟨[], [], []⟩ : StoreState).seenId "m_1").1,
          seenLink := (⟨[], [], []⟩ : StoreState).seenLink ++ ["https://a.com/x"] }, true) ∧
     (saddL ((⟨[], [], []⟩ : StoreState).seenLink ++ ["https://a.com/x"]) "https://a.com/x").2 = 0 ∧
     Collect.insertIfNew
       (Collect.insertIfNew ⟨[], [], []⟩ "https://a.com/x" "m_1" "member0" 5).1
       "https://a.com/x" "m_2" "member1" 7 =
       ((Collect.insertIfNew ⟨[], [], []⟩ "https://a.com/x" "m_1" "member0" 5).1, false)) :=
  ⟨by simp, by simp,
    insertIfNew_insert_then_skip ⟨[], [], []⟩ "https://a.com/x" "m_1" "member0"
      "m_2" "member1" 5 7 (by simp) (by simp)⟩

/-! ## Claim C8 -/

/-- Helper: the insertion step on a fresh canonical URL, as one equation. -/
theorem insertIfNew_fresh (st : StoreState) (canon mid member : String)
    (ts : Int) (hfresh : canon ∉ st.seenLink)
    (hmem : ∀ p ∈ st.zset, p.2 ≠ member) :
    Collect.insertIfNew st canon mid member ts =
      ({ zset := st.zset ++ [(ts, member)],
         seenId := (saddL st.seenId mid).1,
         seenLink := st.seenLink ++ [canon] }, true) := by
  unfold Collect.insertIfNew
  rw [saddL_not_mem hfresh]
  simp [zadd_not_mem hmem]

/-- C8 counterexample: the trim call removes an entry whose score equals
the cutoff, although such an entry is not *below* the cutoff — the Redis
range `-inf..cutoff` is inclusive. -/
theorem trimStep_removes_score_at_cutoff :
    ((0 : Int), "m") ∈ (⟨[((0 : Int), "m")], [], []⟩ : StoreState).zset ∧
    ¬ ((0 : Int) < 0) ∧
    (trimStep ⟨[((0 : Int), "m")], [], []⟩ 0).zset = [] := by
  refine ⟨by simp, by omega, ?_⟩
  simp [trimStep, zremrangebyscore]

/-- C8 (amended: the trim deletes the entries with score at or below the
cutoff, not only those strictly below): the trim step deletes exactly the
sorted-set entries of score ≤ cutoff and modifies neither dedup set; in
particular, after inserting a Mention published 15 days before `now` and
trimming at `now` minus 14 days, a range query over the last 14 days does
not return the member while the canonical URL is still recorded as seen. -/
theorem trimStep_frame_and_retention (st : StoreState) (cutoff : Int)
    (canon mid member : String) (now : Int)
    (hfresh : canon ∉ st.seenLink) (hmem : ∀ p ∈ st.zset, p.2 ≠ member) :
    (trimStep st cutoff).seenId = st.seenId ∧
    (trimStep st cutoff).seenLink = st.seenLink ∧
    (∀ p : Int × String,
      p ∈ (trimStep st cutoff).zset ↔ p ∈ st.zset ∧ cutoff < p.1) ∧
    (member ∉ rangeByScore
        (trimStep (Collect.insertIfNew st canon mid member
            (now - 15 * 24 * 60 * 60)).1 (now - 14 * 24 * 60 * 60)).zset
        (now - 14 * 24 * 60 * 60) now ∧
      canon ∈ (trimStep (Collect.insertIfNew st canon mid member
          (now - 15 * 24 * 60 * 60)).1 (now - 14 * 24 * 60 * 60)).seenLink) := by
  refine ⟨rfl, rfl, ?_, ?_, ?_⟩
  · intro p
    simp [trimStep, zremrangebyscore, List.mem_filter]
  · rw [insertIfNew_fresh st canon mid member _ hfresh hmem]
    simp only [trimStep, zremrangebyscore, rangeByScore, List.mem_map,
      List.mem_filter, not_exists, not_and]
    rintro p ⟨⟨hp, hcut⟩, _⟩ hpm
    rcases List.mem_append.mp hp with hin | hone
    · exact hmem p hin hpm
    · have : p = (now - 15 * 24 * 60 * 60, member) := by simpa using hone
      rw [this] at hcut
      simp at hcut

  · rw [insertIfNew_fresh st canon mid member _ hfresh hmem]
    simp [trimStep]

/-- Witness for C8 at a concrete input: empty store, a Mention published
15 days before `now = 10000000`. -/
theorem trimStep_frame_and_retention_witness :
    ("https://b.com/y" ∉ (⟨[], [], []⟩ : StoreState).seenLink) ∧
    (∀ p ∈ (⟨[], [], []⟩ : StoreState).zset, p.2 ≠ "memberY") ∧
    ("memberY" ∉ rangeByScore
        (trimStep (Collect.insertIfNew ⟨[], [], []⟩ "https://b.com/y" "m_9"
            "memberY" (10000000 - 15 * 24 * 60 * 60)).1
          (10000000 - 14 * 24 * 60 * 60)).zset
        (10000000 - 14 * 24 * 60 * 60) 10000000 ∧
      "https://b.com/y" ∈ (trimStep (Collect.insertIfNew ⟨[], [], []⟩
          "https://b.com/y" "m_9" "memberY"
          (10000000 - 15 * 24 * 60 * 60)).1
        (10000000 - 14 * 24 * 60 * 60)).seenLink) :=
  ⟨by simp, by simp,
    (trimStep_frame_and_retention ⟨[], [], []⟩ 0 "https://b.com/y" "m_9"
      "memberY" 10000000 (by simp) (by simp)).2.2.2⟩

/-! ## Claim C9 -/

/-- C9 counterexample: the same canonical URL gets three different ids
depending on which producer computed it — the hash body agrees but the
producer tags `m_` / `law360_` / `congress_` differ. -/
theorem idFromCanonical_differs_across_producers :
    Collect.idFromCanonical "https://a.com/x" ≠
      Law360.idFromCanonical "https://a.com/x" ∧
    Collect.idFromCanonical "https://a.com/x" ≠
      Congress.idFromCanonical "https://a.com/x" ∧
    Law360.idFromCanonical "https://a.com/x" ≠
      Congress.idFromCanonical "https://a.com/x" := by
  refine ⟨?_, ?_, ?_⟩ <;> decide

/-- C9 (amended: within each producer the id is a deterministic stable
hash of the canonical URL, and all three producers compute the same 32-bit
hash, but each attaches its own tag — `m_`, `law360_`, `congress_` — so
ids for the same canonical URL differ across producers): for every
canonical URL the three ids share the hexadecimal hash body and are
pairwise distinct. -/
theorem idFromCanonical_shared_hash (c : String) :
    Collect.idFromCanonical c =
      "m_" ++ String.mk (Nat.toDigits 16 (Collect.hash31 c)) ∧
    Law360.idFromCanonical c =
      "law360_" ++ String.mk (Nat.toDigits 16 (Collect.hash31 c)) ∧
    Congress.idFromCanonical c =
      "congress_" ++ String.mk (Nat.toDigits 16 (Collect.hash31 c)) ∧
    Collect.idFromCanonical c ≠ Law360.idFromCanonical c ∧
    Collect.idFromCanonical c ≠ Congress.idFromCanonical c ∧
    Law360.idFromCanonical c ≠ Congress.idFromCanonical c := by
  have hlen : ∀ (p1 p2 : String), p1.length ≠ p2.length →
      ∀ s : String, p1 ++ s ≠ p2 ++ s := by
    intro p1 p2 hne s h
    have := congrArg String.length h
    rw [String.length_append, String.length_append] at this
    omega
  refine ⟨rfl, rfl, rfl, ?_, ?_, ?_⟩
  · exact hlen "m_" "law360_" (by decide) _
  · exact hlen "m_" "congress_" (by decide) _
  · exact hlen "law360_" "congress_" (by decide) _

/-! ## Claim C1 -/

/-- C1: evaluation of the congress tracker at the failing input.  Two
consecutive polls of `storeStep` re-derive the same canonical URL, but
because the latest action (and hence the serialized member) changed
between the polls, `ZADD` appends a second member instead of updating the
first: after the second poll the sorted set holds two distinct serialized
Mentions with equal `canon`, violating the store-wide uniqueness
invariant (no manual purge is involved).  This contradicts the source's
own comment `Store in Redis (using zadd which will update if exists)`. -/
theorem congress_repoll_stores_duplicate_canon :
    (let m1 := Congress.pollMention "To amend title 18, United States Code"
       "Introduced in House" "2025-06-01" 1000 0 []
     let m2 := Congress.pollMention "To amend title 18, United States Code"
       "Passed the House" "2025-09-15" 2000 1
       [{ text := some "On passage Passed by the House" }]
     let st := Congress.storeStep (Congress.storeStep ⟨[], [], []⟩ m1 0) m2 0
     m1.canon = m2.canon ∧
     (1000, Congress.serializeCongressMention m1) ∈ st.zset ∧
     (2000, Congress.serializeCongressMention m2) ∈ st.zset ∧
     Congress.serializeCongressMention m1 ≠
       Congress.serializeCongressMention m2) := by
  refine ⟨by decide, by decide, by decide, by decide⟩

/-! ## Claim C4 -/

/-- C4 counterexample: on two empty inputs the similarity is 1, not 0 —
JavaScript `"".split(' ')` is `[""]`, so both distinct-token sets are the
singleton containing the empty token and the Jaccard quotient is 1/1. -/
theorem textSimilarity_empty_inputs_is_one :
    Collect.textSimilarity "" "" = 1 ∧ (1 : ℚ) ≠ 0 := by
  constructor
  · have h1 : (Collect.interSet "" "").card = 1 := by decide
    have h2 : (Collect.unionSet "" "").card = 1 := by decide
    unfold Collect.textSimilarity
    rw [h1, h2]
    norm_num
  · norm_num

/-- C4 (amended: the similarity is the Jaccard index over the
distinct-token sets of a single-space split — where the token set of the
empty string is the singleton containing the empty token — and always
lies in [0,1]; on two empty inputs both sets are that singleton and the
similarity is 1, not 0): the source's filter/spread computation equals
the intersection-over-union quotient, which is bounded by [0,1]. -/
theorem textSimilarity_jaccard_bounds (a b : String) :
    Collect.textSimilarity a b =
      ((Collect.tokenSet a ∩ Collect.tokenSet b).card : ℚ) /
        ((Collect.tokenSet a ∪ Collect.tokenSet b).card : ℚ) ∧
    0 ≤ Collect.textSimilarity a b ∧ Collect.textSimilarity a b ≤ 1 := by
  have hsub := interSet_subset_unionSet a b
  have hu : (0 : ℚ) < ((Collect.unionSet a b).card : ℚ) := by
    exact_mod_cast unionSet_card_pos a b
  refine ⟨?_, ?_, ?_⟩
  · unfold Collect.textSimilarity
    rw [interSet_eq, unionSet_eq]
  · unfold Collect.textSimilarity
    positivity
  · unfold Collect.textSimilarity
    rw [div_le_one hu]
    exact_mod_cast Finset.card_le_card hsub

/-! ## Claim C5 -/

/-- C5 counterexample: for the spec's two example titles the normalized
contents share only the tokens `delta`, `chatbot`, `customer` out of a
union of eight, so the similarity is 3/8, below the 0.60 threshold, and
`isDuplicateStory` returns `false` for the second item even with the
first stored 1 hour earlier under the same origin. -/
theorem nearDup_example_below_threshold :
    (let contentB := Collect.normalizeText
        ("Delta Airlines Launches AI-Powered Customer Chatbot" ++ " " ++ "")
     let contentA := Collect.normalizeText
        ("Delta Adds New AI Chatbot for Customer Service" ++ " " ++ "")
     Collect.textSimilarity contentB contentA = 3 / 8 ∧
     ¬ ((6 : ℚ) / 10 ≤ 3 / 8) ∧
     Collect.isDuplicateStory
       (fun s => if s = "memberA" then
          some { origin := "guardant_health",
                 title := "Delta Adds New AI Chatbot for Customer Service",
                 summary := some "" } else none)
       [((996400 : Int), "memberA")] 1000000
       "Delta Airlines Launches AI-Powered Customer Chatbot" ""
       "guardant_health" = false) := by
  refine ⟨?_, by norm_num, by decide⟩
  have h1 : (Collect.interSet
      (Collect.normalizeText
        ("Delta Airlines Launches AI-Powered Customer Chatbot" ++ " " ++ ""))
      (Collect.normalizeText
        ("Delta Adds New AI Chatbot for Customer Service" ++ " " ++ ""))).card
      = 3 := by decide
  have h2 : (Collect.unionSet
      (Collect.normalizeText
        ("Delta Airlines Launches AI-Powered Customer Chatbot" ++ " " ++ ""))
      (Collect.normalizeText
        ("Delta Adds New AI Chatbot for Customer Service" ++ " " ++ ""))).card
      = 8 := by decide
  unfold Collect.textSimilarity
  rw [h1, h2]
  norm_num

/-- C5 (amended: for the two example titles with the same origin and the
first stored within the preceding 48 hours, the computed similarity of
their normalized contents is 3/8, which is below the 0.60 threshold, so
`isDuplicateStory` returns `false` for the second item and it is *stored*
rather than suppressed): the full per-item pipeline stores the second
item. -/
theorem nearDup_example_second_item_stored :
    (let deser : String → Option Collect.ArticleRec := fun s =>
       if s = "memberA" then
         some { origin := "guardant_health",
                title := "Delta Adds New AI Chatbot for Customer Service",
                summary := some "" } else none
     let itB : Collect.RssItem :=
       { title := some "Delta Airlines Launches AI-Powered Customer Chatbot",
         linkField := .str "https://news2.example.com/delta-chatbot" }
     let st0 : StoreState :=
       ⟨[((996400 : Int), "memberA")], ["idA"],
         ["https://news1.example.com/delta-ai"]⟩
     let run := Collect.processItem (fun _ => false) (fun _ _ _ _ => false)
       deser false "guardant_health" "Guardant Health" "Feed" itB st0 1000000
     Collect.isDuplicateStory deser st0.zset 1000000
       (Collect.itemTitle itB) (Collect.itemSummary itB)
       "guardant_health" = false ∧
     run.1 = .storedItem) := by
  exact ⟨by decide, by decide⟩

/-! ## Claim C6 -/

/-- C6: the press-release predicate is evaluated first.  Whatever the
blocklist and international predicates would answer, whatever the origin
(including the accept-all `guardant_health` branch), and whatever the
near-duplicate scan would find, an item recognised as a press release is
dropped with the state unchanged — it is never stored. -/
theorem pressRelease_checked_first
    (blocked : String → Bool) (intl : String → String → String → String → Bool)
    (deser : String → Option Collect.ArticleRec) (sent : Bool)
    (origin sectionLabel feedTitle : String) (e : Collect.RssItem)
    (st : StoreState) (now : Int)
    (h : Collect.isPressRelease (Collect.itemTitle e) (Collect.itemSummary e)
        (Collect.displaySource (Collect.extractItemLink e) feedTitle) = true) :
    Collect.processItem blocked intl deser sent origin sectionLabel feedTitle
      e st now = (.skippedPressRelease, st) := by
  simp [Collect.processItem, h]

/-- Witness for C6 at a concrete input: a press-release item tagged with
the accept-all origin, with both external predicates answering `true` —
the press-release rejection still fires first. -/
theorem pressRelease_checked_first_witness :
    (Collect.isPressRelease
        (Collect.itemTitle { title := some "Acme Signs Pact press release" })
        (Collect.itemSummary { title := some "Acme Signs Pact press release" })
        (Collect.displaySource
          (Collect.extractItemLink { title := some "Acme Signs Pact press release" })
          "Feed") = true) ∧
    Collect.processItem (fun _ => true) (fun _ _ _ _ => true) (fun _ => none)
      true "guardant_health" "Guardant Health" "Feed"
      { title := some "Acme Signs Pact press release" } ⟨[], [], []⟩ 1000000 =
      (.skippedPressRelease, ⟨[], [], []⟩) :=
  ⟨by decide,
    pressRelease_checked_first (fun _ => true) (fun _ _ _ _ => true)
      (fun _ => none) true "guardant_health" "Guardant Health" "Feed"
      { title := some "Acme Signs Pact press release" } ⟨[], [], []⟩ 1000000
      (by decide)⟩

/-! ## Claim C7 -/

/-- C7: origin-D override precedence.  For a `stubhub` item whose text
contains an event-focused keyword and also a business-news override
keyword, which matches no ticket-buying-guide phrase and no universal
filter, `shouldFilterArticle` returns `false` — the business-news
override always wins over the event-recap rejection. -/
theorem stubhub_business_override_wins (title summary source link : String)
    (h1 : Collect.hasEarningsSnapshot title = false)
    (h2 : Collect.hasOpinionMarker (jsLower title) = false)
    (h3 : Collect.isOpinionUrl link = false)
    (h4 : Collect.hasShopping (jsLower (title ++ " " ++ summary)) = false)
    (h5 : Collect.hasPriceInTitle (jsLower title) = false)
    (h6 : Collect.hasStockKeywords (jsLower (title ++ " " ++ summary)) = false)
    (h7 : Collect.stockFocusedInTitle (jsLower title) = false)
    (h8 : Collect.stubhubTicketGuide (jsLower (title ++ " " ++ summary)) = false)
    (h9 : Collect.stubhubEventFocused (jsLower (title ++ " " ++ summary)) = true)
    (h10 : Collect.stubhubBusiness (jsLower (title ++ " " ++ summary)) = true) :
    Collect.shouldFilterArticle "stubhub" title summary source link = false := by
  simp [Collect.shouldFilterArticle, h1, h2, h3, h4, h5, h6, h7, h8, h9, h10]

/-- Witness for C7 at a concrete input: a StubHub article containing the
event keyword `concert recap` and the override keywords `stubhub fees` /
`antitrust`. -/
theorem stubhub_business_override_wins_witness :
    (Collect.stubhubEventFocused
        (jsLower ("StubHub fees face antitrust concert recap inquiry" ++
          " " ++ "")) = true ∧
     Collect.stubhubBusiness
        (jsLower ("StubHub fees face antitrust concert recap inquiry" ++
          " " ++ "")) = true) ∧
    Collect.shouldFilterArticle "stubhub"
      "StubHub fees face antitrust concert recap inquiry" ""
      "example.com" "https://example.com/a" = false :=
  ⟨⟨by decide, by decide⟩,
    stubhub_business_override_wins
      "StubHub fees face antitrust concert recap inquiry" ""
      "example.com" "https://example.com/a"
      (by decide) (by decide) (by decide) (by decide) (by decide)
      (by decide) (by decide) (by decide) (by decide) (by decide)⟩

/-! ## Claim C10 -/

/-- C10: an item whose resolved link is empty is not skipped for being
link-less: the canonical URL falls back to `normalizeUrl` of the trimmed
title (`link || title`), the stored Mention keeps the empty link, and the
item is dropped at this stage only when that fallback canon is itself
empty. -/
theorem linkless_item_title_fallback
    (blocked : String → Bool) (intl : String → String → String → String → Bool)
    (deser : String → Option Collect.ArticleRec) (sent : Bool)
    (origin sectionLabel feedTitle : String) (e : Collect.RssItem)
    (st : StoreState) (now : Int)
    (hlink : Collect.extractItemLink e = "")
    (hpr : Collect.isPressRelease (Collect.itemTitle e) (Collect.itemSummary e)
        (Collect.displaySource "" feedTitle) = false)
    (hbl : blocked "" = false)
    (hint : intl (Collect.itemTitle e) (Collect.itemSummary e) ""
        (Collect.displaySource "" feedTitle) = false)
    (hfl : Collect.shouldFilterArticle origin (Collect.itemTitle e)
        (Collect.itemSummary e) (Collect.displaySource "" feedTitle) "" = false)
    (hdup : Collect.isDuplicateStory deser st.zset now (Collect.itemTitle e)
        (Collect.itemSummary e) origin = false) :
    (Collect.normalizeUrl (Collect.itemTitle e) = "" →
      Collect.processItem blocked intl deser sent origin sectionLabel
        feedTitle e st now = (.skippedEmptyCanon, st)) ∧
    (Collect.normalizeUrl (Collect.itemTitle e) ≠ "" →
      Collect.normalizeUrl (Collect.itemTitle e) ∉ st.seenLink →
      (Collect.processItem blocked intl deser sent origin sectionLabel
          feedTitle e st now).1 = .storedItem ∧
      (Collect.builtMention
          (Collect.idFromCanonical (Collect.normalizeUrl (Collect.itemTitle e)))
          (Collect.normalizeUrl (Collect.itemTitle e)) sectionLabel
          (Collect.itemTitle e) "" (Collect.displaySource "" feedTitle)
          (Collect.itemSummary e) origin (Collect.toEpoch e.parsedDate now)
          sent).link = "" ∧
      (Collect.builtMention
          (Collect.idFromCanonical (Collect.normalizeUrl (Collect.itemTitle e)))
          (Collect.normalizeUrl (Collect.itemTitle e)) sectionLabel
          (Collect.itemTitle e) "" (Collect.displaySource "" feedTitle)
          (Collect.itemSummary e) origin (Collect.toEpoch e.parsedDate now)
          sent).canon = Collect.normalizeUrl (Collect.itemTitle e) ∧
      Collect.normalizeUrl (Collect.itemTitle e) ∈
        (Collect.processItem blocked intl deser sent origin sectionLabel
          feedTitle e st now).2.seenLink ∧
      (now - 14 * 24 * 60 * 60 < Collect.toEpoch e.parsedDate now →
        (Collect.toEpoch e.parsedDate now,
          Collect.serializeMention (Collect.builtMention
            (Collect.idFromCanonical (Collect.normalizeUrl (Collect.itemTitle e)))
            (Collect.normalizeUrl (Collect.itemTitle e)) sectionLabel
            (Collect.itemTitle e) "" (Collect.displaySource "" feedTitle)
            (Collect.itemSummary e) origin (Collect.toEpoch e.parsedDate now)
            sent)) ∈
          (Collect.processItem blocked intl deser sent origin sectionLabel
            feedTitle e st now).2.zset)) := by
  constructor
  · intro hempty
    simp [Collect.processItem, hlink, hpr, hbl, hint, hfl, hdup, hempty]
  · intro hne hfresh
    have hstep : Collect.processItem blocked intl deser sent origin
        sectionLabel feedTitle e st now =
        (.storedItem,
          { zset := zremrangebyscore
              (zadd st.zset (Collect.toEpoch e.parsedDate now)
                (Collect.serializeMention (Collect.builtMention
                  (Collect.idFromCanonical
                    (Collect.normalizeUrl (Collect.itemTitle e)))
                  (Collect.normalizeUrl (Collect.itemTitle e)) sectionLabel
                  (Collect.itemTitle e) "" (Collect.displaySource "" feedTitle)
                  (Collect.itemSummary e) origin
                  (Collect.toEpoch e.parsedDate now) sent)))
              (now - 14 * 24 * 60 * 60),
            seenId := (saddL st.seenId
              (Collect.idFromCanonical
                (Collect.normalizeUrl (Collect.itemTitle e)))).1,
            seenLink := st.seenLink ++
              [Collect.normalizeUrl (Collect.itemTitle e)] }) := by
      simp [Collect.processItem, hlink, hpr, hbl, hint, hfl, hdup, hne,
        Collect.insertIfNew, saddL_not_mem hfresh]
    refine ⟨by rw [hstep], rfl, rfl, by rw [hstep]; simp, ?_⟩
    intro hts
    rw [hstep]
    simp only [zremrangebyscore, List.mem_filter]
    exact ⟨mem_zadd_self _ _ _, by simpa using hts⟩

/-- Witness for C10 at a concrete input: an item with no link fields at
all and the title `Plain Headline Item`, which passes every filter; it is
stored with the normalized title as its dedup key. -/
theorem linkless_item_title_fallback_witness :
    (Collect.extractItemLink { title := some "Plain Headline Item" } = "") ∧
    (Collect.normalizeUrl
      (Collect.itemTitle { title := some "Plain Headline Item" }) ≠ "") ∧
    ((Collect.processItem (fun _ => false) (fun _ _ _ _ => false)
        (fun _ => none) false "misc" "Misc" "Feed"
        { title := some "Plain Headline Item" } ⟨[], [], []⟩ 1000000).1 =
      .storedItem) :=
  ⟨by decide, by decide,
    ((linkless_item_title_fallback (fun _ => false) (fun _ _ _ _ => false)
      (fun _ => none) false "misc" "Misc" "Feed"
      { title := some "Plain Headline Item" } ⟨[], [], []⟩ 1000000
      (by decide) (by decide) (by decide) (by decide) (by decide)
      (by decide)).2 (by decide) (by decide)).1⟩

/-! ## Claim C3: character-level lemmas -/

theorem charToNat_inj {c d : Char} (h : c.toNat = d.toNat) : c = d := by
  apply Char.eq_of_val_eq
  apply UInt32.eq_of_val_eq
  exact Fin.val_injective h

theorem charOfNat_toNat {n : Nat} (h : n < 55296) : (Char.ofNat n).toNat = n := by
  have hv : n.isValidChar := Or.inl h
  simp only [Char.ofNat, dif_pos hv, Char.ofNatAux, Char.toNat]
  rfl

/-- `lowChar` either fixes its argument or maps an upper-case letter 32
code points up. -/
theorem lowChar_spec (c : Char) :
    lowChar c = c ∨
      ((lowChar c).toNat = c.toNat + 32 ∧ 65 ≤ c.toNat ∧ c.toNat ≤ 90) := by
  unfold lowChar
  split
  · next h => exact Or.inr ⟨charOfNat_toNat (by omega), h.1, h.2⟩
  · exact Or.inl rfl

theorem lowChar_idem (c : Char) : lowChar (lowChar c) = lowChar c := by
  rcases lowChar_spec c with h | ⟨h1, h2, h3⟩
  · rw [h, h]
  · have heq : lowChar (lowChar c) =
        if 65 ≤ (lowChar c).toNat ∧ (lowChar c).toNat ≤ 90 then
          Char.ofNat ((lowChar c).toNat + 32) else lowChar c := rfl
    rw [heq, if_neg (by omega)]

theorem hostEnd_toNat (c : Char) :
    UrlM.hostEnd c = true ↔ (c.toNat = 47 ∨ c.toNat = 63 ∨ c.toNat = 35) := by
  constructor
  · intro h
    simp only [UrlM.hostEnd, Bool.or_eq_true, decide_eq_true_eq] at h
    rcases h with (rfl | rfl) | rfl
    · exact Or.inl (by decide)
    · exact Or.inr (Or.inl (by decide))
    · exact Or.inr (Or.inr (by decide))
  · intro h
    rcases h with h | h | h
    · have hc : c = '/' := @charToNat_inj c '/' (by rw [h]; decide)
      rw [hc]; decide
    · have hc : c = '?' := @charToNat_inj c '?' (by rw [h]; decide)
      rw [hc]; decide
    · have hc : c = '#' := @charToNat_inj c '#' (by rw [h]; decide)
      rw [hc]; decide

theorem pathEnd_toNat (c : Char) :
    UrlM.pathEnd c = true ↔ (c.toNat = 63 ∨ c.toNat = 35) := by
  constructor
  · intro h
    simp only [UrlM.pathEnd, Bool.or_eq_true, decide_eq_true_eq] at h
    rcases h with rfl | rfl
    · exact Or.inl (by decide)
    · exact Or.inr (by decide)
  · intro h
    rcases h with h | h
    · have hc : c = '?' := @charToNat_inj c '?' (by rw [h]; decide)
      rw [hc]; decide
    · have hc : c = '#' := @charToNat_inj c '#' (by rw [h]; decide)
      rw [hc]; decide

theorem wsChar_toNat (c : Char) :
    wsChar c = true ↔
      (c.toNat = 32 ∨ c.toNat = 9 ∨ c.toNat = 10 ∨ c.toNat = 13) := by
  constructor
  · intro h
    simp only [wsChar, Bool.or_eq_true, decide_eq_true_eq] at h
    rcases h with ((rfl | rfl) | rfl) | rfl
    · exact Or.inl (by decide)
    · exact Or.inr (Or.inl (by decide))
    · exact Or.inr (Or.inr (Or.inl (by decide)))
    · exact Or.inr (Or.inr (Or.inr (by decide)))
  · intro h
    rcases h with h | h | h | h
    · have hc : c = ' ' := @charToNat_inj c ' ' (by rw [h]; decide)
      rw [hc]; decide
    · have hc : c = '\t' := @charToNat_inj c '\t' (by rw [h]; decide)
      rw [hc]; decide
    · have hc : c = '\n' := @charToNat_inj c '\n' (by rw [h]; decide)
      rw [hc]; decide
    · have hc : c = '\r' := @charToNat_inj c '\r' (by rw [h]; decide)
      rw [hc]; decide

theorem hostEnd_lowChar {c : Char} (h : UrlM.hostEnd c = false) :
    UrlM.hostEnd (lowChar c) = false := by
  cases hle : UrlM.hostEnd (lowChar c)
  · rfl
  · exfalso
    have hn := (hostEnd_toNat (lowChar c)).mp hle
    rcases lowChar_spec c with hc | ⟨h1, h2, h3⟩
    · rw [hc] at hle
      rw [hle] at h
      exact Bool.noConfusion h
    · omega

theorem pathEnd_lowChar {c : Char} (h : UrlM.pathEnd c = false) :
    UrlM.pathEnd (lowChar c) = false := by
  cases hle : UrlM.pathEnd (lowChar c)
  · rfl
  · exfalso
    have hn := (pathEnd_toNat (lowChar c)).mp hle
    rcases lowChar_spec c with hc | ⟨h1, h2, h3⟩
    · rw [hc] at hle
      rw [hle] at h
      exact Bool.noConfusion h
    · omega

theorem wsChar_lowChar {c : Char} (h : wsChar c = false) :
    wsChar (lowChar c) = false := by
  cases hle : wsChar (lowChar c)
  · rfl
  · exfalso
    have hn := (wsChar_toNat (lowChar c)).mp hle
    rcases lowChar_spec c with hc | ⟨h1, h2, h3⟩
    · rw [hc] at hle
      rw [hle] at h
      exact Bool.noConfusion h
    · omega

theorem isAlpha_toNat {c : Char} (h : c.isAlpha = true) :
    (65 ≤ c.toNat ∧ c.toNat ≤ 90) ∨ (97 ≤ c.toNat ∧ c.toNat ≤ 122) := by
  simp [Char.isAlpha, Char.isUpper, Char.isLower] at h
  rcases h with ⟨h1, h2⟩ | ⟨h1, h2⟩
  · exact Or.inl ⟨h1, h2⟩
  · exact Or.inr ⟨h1, h2⟩

theorem isDigit_toNat {c : Char} (h : c.isDigit = true) :
    48 ≤ c.toNat ∧ c.toNat ≤ 57 := by
  simp [Char.isDigit] at h
  exact h

theorem schemeChar_not_ws {c : Char} (h : UrlM.schemeChar c = true) :
    wsChar c = false := by
  cases hws : wsChar c
  · rfl
  · exfalso
    have hn := (wsChar_toNat c).mp hws
    simp only [UrlM.schemeChar, Bool.or_eq_true, decide_eq_true_eq] at h
    rcases h with (((ha | hd) | rfl) | rfl) | rfl
    · rcases isAlpha_toNat ha with h1 | h1 <;> omega
    · have := isDigit_toNat hd
      omega
    · exact absurd hn (by decide)
    · exact absurd hn (by decide)
    · exact absurd hn (by decide)

theorem schemeChar_ne_colon {c : Char} (h : UrlM.schemeChar c = true) :
    c ≠ ':' := by
  rintro rfl
  simp [UrlM.schemeChar] at h

/-! ## Claim C3: list span and trim lemmas -/

theorem takeWhile_dropWhile_append {α : Type} (p : α → Bool) (l₁ l₂ : List α)
    (h1 : ∀ a ∈ l₁, p a = true) (h2 : ∀ c ∈ l₂.head?, p c = false) :
    (l₁ ++ l₂).takeWhile p = l₁ ∧ (l₁ ++ l₂).dropWhile p = l₂ := by
  induction l₁ with
  | nil =>
    simp only [List.nil_append]
    cases l₂ with
    | nil => simp
    | cons b t =>
      have hb : p b = false := h2 b (by simp)
      simp [List.takeWhile_cons, List.dropWhile_cons, hb]
  | cons a t ih =>
    have ha : p a = true := h1 a (by simp)
    have iht := ih (fun x hx => h1 x (by simp [hx]))
    simp only [List.cons_append, List.takeWhile_cons, List.dropWhile_cons, ha]
    simp [iht.1, iht.2]

theorem prefix_head_eq {α : Type} {l₁ l₂ : List α} (h : l₁ <+: l₂)
    (hne : l₁ ≠ []) : l₁.head? = l₂.head? := by
  rcases h with ⟨t, rfl⟩
  cases l₁ with
  | nil => exact absurd rfl hne
  | cons a t1 => simp

theorem trimCL_eq_rdrop (cs : List Char) :
    trimCL cs = List.rdropWhile wsChar (cs.dropWhile wsChar) := by
  simp [trimCL, List.rdropWhile]

theorem trimCL_idem (cs : List Char) : trimCL (trimCL cs) = trimCL cs := by
  rw [trimCL_eq_rdrop, trimCL_eq_rdrop]
  have hd : (List.rdropWhile wsChar (cs.dropWhile wsChar)).dropWhile wsChar =
      List.rdropWhile wsChar (cs.dropWhile wsChar) := by
    rcases hc : List.rdropWhile wsChar (cs.dropWhile wsChar) with _ | ⟨a, t⟩
    · simp
    · have hpre := List.rdropWhile_prefix (p := wsChar)
        (l := cs.dropWhile wsChar)
      rw [hc] at hpre
      have hh : (a :: t).head? = (cs.dropWhile wsChar).head? :=
        prefix_head_eq hpre (by simp)
      have hhead : wsChar a = false := by
        have hds : (cs.dropWhile wsChar).dropWhile wsChar =
            cs.dropWhile wsChar := List.dropWhile_idempotent _ _
        rcases hdd : cs.dropWhile wsChar with _ | ⟨b, tb⟩
        · rw [hdd] at hh
          simp at hh
        · rw [hdd] at hh
          simp at hh
          rw [hdd] at hds
          rw [List.dropWhile_cons] at hds
          by_cases hb : wsChar b
          · rw [if_pos hb] at hds
            have hlc := congrArg List.length hds
            simp at hlc
            have hlen : (tb.dropWhile wsChar).length ≤ tb.length :=
              List.Sublist.length_le
                (List.IsSuffix.sublist (List.dropWhile_suffix wsChar))
            omega
          · rw [hh]
            cases hwb : wsChar b
            · rfl
            · exact absurd hwb hb
      rw [List.dropWhile_cons, hhead]
      simp
  rw [hd, List.rdropWhile_idempotent]

theorem trimCL_eq_self {cs : List Char} (h : ∀ c ∈ cs, wsChar c = false) :
    trimCL cs = cs := by
  rw [trimCL_eq_rdrop]
  have h1 : cs.dropWhile wsChar = cs := by
    cases cs with
    | nil => simp
    | cons a t =>
      rw [List.dropWhile_cons, h a (by simp)]
      simp
  rw [h1]
  rw [List.rdropWhile_eq_self_iff]
  intro hl hws
  have := h _ (List.getLast_mem hl)
  rw [hws] at this
  exact Bool.noConfusion this

/-! ## Claim C3: query split and serialization lemmas -/

theorem splitOnCharCL_cons (sep c : Char) (t : List Char) :
    splitOnCharCL sep (c :: t) =
      match splitOnCharCL sep t with
      | [] => [[]]
      | s :: ss => if c = sep then [] :: s :: ss else (c :: s) :: ss := rfl

theorem splitOnCharCL_no_sep {sep : Char} {seg : List Char}
    (h : ∀ c ∈ seg, c ≠ sep) : splitOnCharCL sep seg = [seg] := by
  induction seg with
  | nil => rfl
  | cons c t ih =>
    have hih := ih (fun x hx => h x (by simp [hx]))
    rw [splitOnCharCL_cons, hih]
    show (if c = sep then [] :: t :: [] else (c :: t) :: []) = [c :: t]
    rw [if_neg (h c (by simp))]

theorem splitOnCharCL_append_sep {sep : Char} {seg : List Char}
    (rest : List Char) (h : ∀ c ∈ seg, c ≠ sep) :
    splitOnCharCL sep (seg ++ sep :: rest) =
      seg :: splitOnCharCL sep rest := by
  induction seg with
  | nil =>
    simp only [List.nil_append]
    rw [splitOnCharCL_cons]
    cases hr : splitOnCharCL sep rest with
    | nil => exact absurd hr (splitOnCharCL_ne_nil sep rest)
    | cons s ss =>
      show (if sep = sep then [] :: s :: ss else (sep :: s) :: ss) =
        [] :: s :: ss
      rw [if_pos rfl]
  | cons c t ih =>
    have hih := ih (fun x hx => h x (by simp [hx]))
    simp only [List.cons_append]
    rw [splitOnCharCL_cons, hih]
    show (if c = sep then [] :: t :: splitOnCharCL sep rest
      else (c :: t) :: splitOnCharCL sep rest) =
      (c :: t) :: splitOnCharCL sep rest
    rw [if_neg (h c (by simp))]

theorem splitOnCharCL_mem_props {sep : Char} {cs seg : List Char}
    (h : seg ∈ splitOnCharCL sep cs) : ∀ c ∈ seg, c ≠ sep ∧ c ∈ cs := by
  induction cs generalizing seg with
  | nil =>
    have hseg : seg = [] := by simpa [splitOnCharCL] using h
    subst hseg
    intro c hc
    exact absurd hc (List.not_mem_nil c)
  | cons a rest ih =>
    rw [splitOnCharCL_cons] at h
    cases hr : splitOnCharCL sep rest with
    | nil => exact absurd hr (splitOnCharCL_ne_nil sep rest)
    | cons s ss =>
      rw [hr] at h
      have h2 : seg ∈ (if a = sep then [] :: s :: ss else (a :: s) :: ss) := h
      by_cases ha : a = sep
      · rw [if_pos ha] at h2
        rcases List.mem_cons.mp h2 with rfl | hmem
        · intro c hc
          exact absurd hc (List.not_mem_nil c)
        · intro c hc
          have hp := @ih seg (by rw [hr]; exact hmem) c hc
          exact ⟨hp.1, by simp [hp.2]⟩
      · rw [if_neg ha] at h2
        rcases List.mem_cons.mp h2 with rfl | hmem
        · intro c hc
          rcases List.mem_cons.mp hc with rfl | hcs
          · exact ⟨ha, by simp⟩
          · have hp := @ih s (by rw [hr]; simp) c hcs
            exact ⟨hp.1, by simp [hp.2]⟩
        · intro c hc
          have hp := @ih seg (by rw [hr]; simp [hmem]) c hc
          exact ⟨hp.1, by simp [hp.2]⟩

theorem serializePairs_single (kv : List Char × List Char) :
    UrlM.serializePairs [kv] = kv.1 ++ '=' :: kv.2 := rfl

theorem serializePairs_cons_cons (kv kv2 : List Char × List Char)
    (rest : List (List Char × List Char)) :
    UrlM.serializePairs (kv :: kv2 :: rest) =
      kv.1 ++ '=' :: kv.2 ++ '&' :: UrlM.serializePairs (kv2 :: rest) := rfl

theorem serializePairs_ne_nil {ps : List (List Char × List Char)}
    (h : ps ≠ []) : UrlM.serializePairs ps ≠ [] := by
  cases ps with
  | nil => exact absurd rfl h
  | cons kv rest =>
    cases rest with
    | nil => simp [serializePairs_single]
    | cons kv2 rest2 => simp [serializePairs_cons_cons]

theorem serializePairs_chars {ps : List (List Char × List Char)}
    (hwf : WfPairs ps) :
    ∀ c ∈ UrlM.serializePairs ps, c ≠ '#' ∧ wsChar c = false := by
  induction ps with
  | nil =>
    intro c hc
    exact absurd hc (List.not_mem_nil c)
  | cons kv rest ih =>
    have hkv := hwf kv (by simp)
    cases rest with
    | nil =>
      intro c hc
      rw [serializePairs_single] at hc
      rcases List.mem_append.mp hc with hk | hv
      · exact ⟨(hkv.1 c hk).2.2.1, (hkv.1 c hk).2.2.2⟩
      · rcases List.mem_cons.mp hv with rfl | hv2
        · exact ⟨by decide, by decide⟩
        · exact ⟨(hkv.2 c hv2).2.1, (hkv.2 c hv2).2.2⟩
    | cons kv2 rest2 =>
      intro c hc
      rw [serializePairs_cons_cons] at hc
      have ihr := ih (fun x hx => hwf x (by simp [hx]))
      rcases List.mem_append.mp hc with hkv12 | hamp
      · rcases List.mem_append.mp hkv12 with hk | hv
        · exact ⟨(hkv.1 c hk).2.2.1, (hkv.1 c hk).2.2.2⟩
        · rcases List.mem_cons.mp hv with rfl | hv2
          · exact ⟨by decide, by decide⟩
          · exact ⟨(hkv.2 c hv2).2.1, (hkv.2 c hv2).2.2⟩
      · rcases List.mem_cons.mp hamp with rfl | hrest
        · exact ⟨by decide, by decide⟩
        · exact ihr c hrest

theorem pair_segment_parse (k v : List Char)
    (hk : ∀ c ∈ k, c ≠ '=') :
    (k ++ '=' :: v).takeWhile (fun c => c ≠ '=') = k ∧
    (match (k ++ '=' :: v).dropWhile (fun c => c ≠ '=') with
      | '=' :: v2 => v2
      | _ => ([] : List Char)) = v := by
  have hspan := takeWhile_dropWhile_append (fun c => decide (c ≠ '='))
    k ('=' :: v) (by intro a ha; simpa using hk a ha)
    (by
      intro c hc
      simp at hc
      rw [← hc]
      decide)
  refine ⟨hspan.1, ?_⟩
  rw [hspan.2]
  rfl

theorem pairsOf_serializePairs {ps : List (List Char × List Char)}
    (hwf : WfPairs ps) (hne : ps ≠ []) :
    UrlM.pairsOf (UrlM.serializePairs ps) = ps := by
  induction ps with
  | nil => exact absurd rfl hne
  | cons kv rest ih =>
    have hkv := hwf kv (by simp)
    have hkamp : ∀ c ∈ kv.1 ++ '=' :: kv.2, c ≠ '&' := by
      intro c hc
      rcases List.mem_append.mp hc with hk | hv
      · exact (hkv.1 c hk).1
      · rcases List.mem_cons.mp hv with rfl | hv2
        · decide
        · exact (hkv.2 c hv2).1
    cases rest with
    | nil =>
      rw [serializePairs_single]
      unfold UrlM.pairsOf
      rw [splitOnCharCL_no_sep hkamp]
      have hnn : (kv.1 ++ '=' :: kv.2).isEmpty = false := by
        simp
      simp only [List.filter_cons, hnn, Bool.not_false, if_true,
        List.filter_nil, List.map_cons, List.map_nil]
      have hp := pair_segment_parse kv.1 kv.2 (fun c hc => (hkv.1 c hc).2.1)
      rw [hp.1, hp.2]
    | cons kv2 rest2 =>
      rw [serializePairs_cons_cons]
      unfold UrlM.pairsOf
      have hassoc : kv.1 ++ '=' :: kv.2 ++ '&' :: UrlM.serializePairs (kv2 :: rest2) =
          (kv.1 ++ '=' :: kv.2) ++ '&' :: UrlM.serializePairs (kv2 :: rest2) := by
        simp
      rw [hassoc, splitOnCharCL_append_sep _ hkamp]
      have hnn : (kv.1 ++ '=' :: kv.2).isEmpty = false := by
        simp
      have ihr := ih (fun x hx => hwf x (by simp [hx])) (by simp)
      unfold UrlM.pairsOf at ihr
      simp only [List.filter_cons, hnn, Bool.not_false, if_true, List.map_cons]
      have hp := pair_segment_parse kv.1 kv.2 (fun c hc => (hkv.1 c hc).2.1)
      rw [hp.1, hp.2]
      rw [ihr]

theorem dropWhile_head_false {α : Type} {p : α → Bool} {l : List α} {a : α}
    {t : List α} (h : l.dropWhile p = a :: t) : p a = false := by
  have hds : (l.dropWhile p).dropWhile p = l.dropWhile p :=
    List.dropWhile_idempotent _ _
  rw [h, List.dropWhile_cons] at hds
  by_cases hp : p a
  · rw [if_pos hp] at hds
    have hlc := congrArg List.length hds
    simp at hlc
    have hlen : (t.dropWhile p).length ≤ t.length :=
      List.Sublist.length_le (List.IsSuffix.sublist (List.dropWhile_suffix p))
    omega
  · cases hpa : p a
    · rfl
    · exact absurd hpa hp

theorem pairsOf_wf {q : List Char}
    (hq : ∀ c ∈ q, c ≠ '#' ∧ wsChar c = false) :
    WfPairs (UrlM.pairsOf q) := by
  intro kv hkv
  unfold UrlM.pairsOf at hkv
  rcases List.mem_map.mp hkv with ⟨seg, hseg, hf⟩
  have hsegm := List.mem_filter.mp hseg
  have hprops := splitOnCharCL_mem_props hsegm.1
  subst hf
  constructor
  · intro c hc
    have hcseg : c ∈ seg := (List.takeWhile_prefix _).subset hc
    have h1 := hprops c hcseg
    have h2 := hq c h1.2
    have h3 := List.mem_takeWhile_imp hc
    exact ⟨h1.1, by simpa using h3, h2.1, h2.2⟩
  · intro c hc
    rcases hdd : seg.dropWhile (fun c => decide (c ≠ '=')) with _ | ⟨d, v⟩
    · rw [hdd] at hc
      exact absurd hc (List.not_mem_nil c)
    · have hd : d = '=' := by
        have := dropWhile_head_false hdd
        simpa using this
      subst hd
      rw [hdd] at hc
      have hcv : c ∈ v := hc
      have hcseg : c ∈ seg := by
        have : c ∈ ('=' :: v) := List.mem_cons_of_mem _ hcv
        rw [← hdd] at this
        exact (List.dropWhile_suffix _).subset this
      have h1 := hprops c hcseg
      have h2 := hq c h1.2
      exact ⟨h1.1, h2.1, h2.2⟩

theorem cleanQuery_none : Collect.cleanQuery none = none := rfl

theorem cleanQuery_some (qq : List Char) :
    Collect.cleanQuery (some qq) =
      (if ((UrlM.pairsOf qq).filter
          (fun kv =>
            !(Collect.trackingParams.map String.data).contains kv.1)).isEmpty
       then none
       else some (UrlM.serializePairs ((UrlM.pairsOf qq).filter
          (fun kv =>
            !(Collect.trackingParams.map String.data).contains kv.1)))) := rfl

theorem cleanQuery_cases (q : Option (List Char))
    (hq : ∀ qq ∈ q, ∀ c ∈ qq, c ≠ '#' ∧ wsChar c = false) :
    Collect.cleanQuery q = none ∨
    ∃ ps, Collect.cleanQuery q = some (UrlM.serializePairs ps) ∧
      WfPairs ps ∧ ps ≠ [] ∧
      ∀ kv ∈ ps,
        (Collect.trackingParams.map String.data).contains kv.1 = false := by
  cases q with
  | none => exact Or.inl cleanQuery_none
  | some qq =>
    rw [cleanQuery_some]
    by_cases hemp : ((UrlM.pairsOf qq).filter
        (fun kv =>
          !(Collect.trackingParams.map String.data).contains kv.1)).isEmpty
    · rw [if_pos hemp]
      exact Or.inl rfl
    · rw [if_neg hemp]
      refine Or.inr ⟨_, rfl, ?_, ?_, ?_⟩
      · intro kv hkv
        have hkv2 := List.mem_filter.mp hkv
        exact pairsOf_wf (hq qq rfl) kv hkv2.1
      · intro hn
        rw [hn] at hemp
        exact hemp rfl
      · intro kv hkv
        have hkv2 := List.mem_filter.mp hkv
        simpa using hkv2.2

theorem cleanQuery_serialize {ps : List (List Char × List Char)}
    (hwf : WfPairs ps) (hne : ps ≠ [])
    (htrk : ∀ kv ∈ ps,
      (Collect.trackingParams.map String.data).contains kv.1 = false) :
    Collect.cleanQuery (some (UrlM.serializePairs ps)) =
      some (UrlM.serializePairs ps) := by
  rw [cleanQuery_some, pairsOf_serializePairs hwf hne]
  have hfilt : ps.filter
      (fun kv => !(Collect.trackingParams.map String.data).contains kv.1) =
      ps := by
    rw [List.filter_eq_self]
    intro kv hkv
    rw [htrk kv hkv]
    rfl
  rw [hfilt]
  rw [if_neg (by simpa [List.isEmpty_iff] using hne)]

theorem serializePairs_dropLast_ex {ps : List (List Char × List Char)}
    (hwf : WfPairs ps) (hne : ps ≠ [])
    (hlast : (UrlM.serializePairs ps).getLast? = some '/') :
    ∃ ps2, UrlM.serializePairs ps2 = (UrlM.serializePairs ps).dropLast ∧
      WfPairs ps2 ∧ ps2 ≠ [] ∧ ps2.map Prod.fst = ps.map Prod.fst := by
  induction ps with
  | nil => exact absurd rfl hne
  | cons kv rest ih =>
    have hkv := hwf kv (by simp)
    cases rest with
    | nil =>
      rw [serializePairs_single] at hlast ⊢
      have hvne : kv.2 ≠ [] := by
        intro hv0
        rw [hv0, List.getLast?_append_of_ne_nil _ (by simp)] at hlast
        simp at hlast
      refine ⟨[(kv.1, kv.2.dropLast)], ?_, ?_, by simp, by simp⟩
      · show kv.1 ++ '=' :: kv.2.dropLast = (kv.1 ++ '=' :: kv.2).dropLast
        rw [List.dropLast_append_of_ne_nil _ (by simp),
          List.dropLast_cons_of_ne_nil hvne]
      · intro kv2 hkv2
        rcases List.mem_cons.mp hkv2 with rfl | hmem
        · exact ⟨hkv.1, fun c hc =>
            hkv.2 c ((List.dropLast_sublist kv.2).subset hc)⟩
        · exact absurd hmem (List.not_mem_nil kv2)
    | cons kv2 rest2 =>
      have hSne : UrlM.serializePairs (kv2 :: rest2) ≠ [] :=
        serializePairs_ne_nil (by simp)
      rw [serializePairs_cons_cons] at hlast
      rw [List.getLast?_append_of_ne_nil _ (by simp)] at hlast
      have hlast2 : (UrlM.serializePairs (kv2 :: rest2)).getLast? =
          some '/' := by
        rcases hS : UrlM.serializePairs (kv2 :: rest2) with _ | ⟨a, t⟩
        · exact absurd hS hSne
        · rw [hS, List.getLast?_cons_cons] at hlast
          exact hlast
      rcases ih (fun x hx => hwf x (by simp [hx])) (by simp) hlast2 with
        ⟨ps2, hser, hwf2, hne2, hmap⟩
      refine ⟨kv :: ps2, ?_, ?_, by simp, by simp [hmap]⟩
      · cases ps2 with
        | nil => exact absurd rfl hne2
        | cons p2 ps2t =>
          rw [serializePairs_cons_cons, serializePairs_cons_cons,
            List.dropLast_append_of_ne_nil _ (by simp),
            List.dropLast_cons_of_ne_nil hSne]
          rw [← hser]
      · intro x hx
        rcases List.mem_cons.mp hx with rfl | hmem
        · exact hkv
        · exact hwf2 x hmem

/-! ## Claim C3: parser round trip -/

theorem any_ws_false_of_all {l : List Char}
    (h : ∀ c ∈ l, wsChar c = false) : l.any wsChar = false := by
  rw [List.any_eq_false]
  intro c hc
  rw [h c hc]
  simp

theorem parseScheme_pos {sch : List Char} (r2 : List Char) (hs1 : sch ≠ [])
    (hs2 : ∀ c ∈ sch, UrlM.schemeChar c = true)
    (hs3 : (sch.headD 'a').isAlpha = true) :
    UrlM.parseScheme sch (':' :: '/' :: '/' :: r2) =
      UrlM.parseAuthority sch r2 := by
  show (if sch.isEmpty then none
    else if !sch.all UrlM.schemeChar then none
    else if !(sch.headD 'a').isAlpha then none
    else UrlM.parseAuthority sch r2) = _
  rw [List.all_eq_true.mpr hs2, hs3,
    if_neg (by simpa [List.isEmpty_iff] using hs1)]
  rfl

theorem parseCore_concat (sch host path : List Char) (q : Option (List Char))
    (hs1 : sch ≠ []) (hs2 : ∀ c ∈ sch, UrlM.schemeChar c = true)
    (hs3 : (sch.headD 'a').isAlpha = true)
    (hh1 : host ≠ [])
    (hh2 : ∀ c ∈ host, UrlM.hostEnd c = false ∧ wsChar c = false)
    (hp : path = [] ∨ (path.head? = some '/' ∧
      ∀ c ∈ path, UrlM.pathEnd c = false ∧ wsChar c = false))
    (hq : ∀ qq ∈ q, ∀ c ∈ qq, c ≠ '#' ∧ wsChar c = false) :
    UrlM.parseCore (sch ++ ':' :: '/' :: '/' :: host ++ path ++ qpart q) =
      some { scheme := sch, host := host,
             path := if path.isEmpty then ['/'] else path,
             query := q, frag := none } := by
  have hpws : ∀ c ∈ path, wsChar c = false := by
    rcases hp with rfl | ⟨_, h2⟩
    · intro c hc
      exact absurd hc (List.not_mem_nil c)
    · intro c hc
      exact (h2 c hc).2
  have hqws : ∀ c ∈ qpart q, wsChar c = false := by
    cases q with
    | none => intro c hc; exact absurd hc (List.not_mem_nil c)
    | some qq =>
      intro c hc
      rcases List.mem_cons.mp hc with rfl | hcq
      · decide
      · exact (hq qq rfl c hcq).2
  have hfull : sch ++ ':' :: '/' :: '/' :: host ++ path ++ qpart q =
      sch ++ ':' :: '/' :: '/' :: (host ++ (path ++ qpart q)) := by
    simp [List.append_assoc]
  rw [hfull]
  have hws : (sch ++ ':' :: '/' :: '/' :: (host ++ (path ++ qpart q))).any
      wsChar = false := by
    apply any_ws_false_of_all
    intro c hc
    rcases List.mem_append.mp hc with hcs | hcr
    · exact schemeChar_not_ws (hs2 c hcs)
    · rcases List.mem_cons.mp hcr with rfl | hcr2
      · decide
      · rcases List.mem_cons.mp hcr2 with rfl | hcr3
        · decide
        · rcases List.mem_cons.mp hcr3 with rfl | hcr4
          · decide
          · rcases List.mem_append.mp hcr4 with hch | hcpq
            · exact (hh2 c hch).2
            · rcases List.mem_append.mp hcpq with hcp | hcq
              · exact hpws c hcp
              · exact hqws c hcq
  have hspan := takeWhile_dropWhile_append (fun c => decide (c ≠ ':'))
    sch (':' :: '/' :: '/' :: (host ++ (path ++ qpart q)))
    (by intro a ha; simpa using schemeChar_ne_colon (hs2 a ha))
    (by intro c hc; simp at hc; rw [← hc]; decide)
  unfold UrlM.parseCore
  rw [if_neg (by rw [hws]; simp), hspan.1, hspan.2,
    parseScheme_pos _ hs1 hs2 hs3]
  have hheadpq : ∀ c ∈ (path ++ qpart q).head?, (!UrlM.hostEnd c) = false := by
    intro c hc
    rw [Option.mem_def] at hc
    have hc2 : c = '/' ∨ c = '?' := by
      rcases hp with rfl | ⟨hph, _⟩
      · rw [List.nil_append] at hc
        cases q with
        | none => exact absurd hc (by simp [qpart])
        | some qq =>
          right
          have hq2 : qpart (some qq) = '?' :: qq := rfl
          rw [hq2, List.head?_cons] at hc
          exact (Option.some.inj hc).symm
      · left
        rcases hpe : path with _ | ⟨p0, pt⟩
        · rw [hpe] at hph
          simp at hph
        · rw [hpe] at hph hc
          rw [List.head?_cons] at hph
          rw [List.cons_append, List.head?_cons] at hc
          have h1 : p0 = '/' := Option.some.inj hph
          have h2 : p0 = c := Option.some.inj hc
          rw [← h2, h1]
    rcases hc2 with rfl | rfl <;> decide
  have hhostspan := takeWhile_dropWhile_append
    (fun c => !UrlM.hostEnd c) host (path ++ qpart q)
    (by
      intro a ha
      show (!UrlM.hostEnd a) = true
      rw [(hh2 a ha).1]
      rfl)
    hheadpq
  have hpa : UrlM.parseAuthority sch (host ++ (path ++ qpart q)) =
      (if ((host ++ (path ++ qpart q)).takeWhile
          (fun c => !UrlM.hostEnd c)).isEmpty then none
        else UrlM.parsePath sch
          ((host ++ (path ++ qpart q)).takeWhile (fun c => !UrlM.hostEnd c))
          ((host ++ (path ++ qpart q)).dropWhile
            (fun c => !UrlM.hostEnd c))) := rfl
  rw [hpa, hhostspan.1, hhostspan.2,
    if_neg (by simpa [List.isEmpty_iff] using hh1)]
  have hpathspan := takeWhile_dropWhile_append
    (fun c => !UrlM.pathEnd c) path (qpart q)
    (by
      intro a ha
      show (!UrlM.pathEnd a) = true
      rcases hp with rfl | ⟨_, h2⟩
      · exact absurd ha (List.not_mem_nil a)
      · rw [(h2 a ha).1]
        rfl)
    (by
      intro c hc
      rw [Option.mem_def] at hc
      cases q with
      | none => exact absurd hc (by simp [qpart])
      | some qq =>
        have hq2 : qpart (some qq) = '?' :: qq := rfl
        rw [hq2, List.head?_cons] at hc
        rw [← Option.some.inj hc]
        decide)
  have hpp : UrlM.parsePath sch host (path ++ qpart q) =
      some ({ scheme := sch, host := host,
              path := (if ((path ++ qpart q).takeWhile (fun c => !UrlM.pathEnd c)).isEmpty then ['/'] else (path ++ qpart q).takeWhile (fun c => !UrlM.pathEnd c)),
              query := (UrlM.parseQF ((path ++ qpart q).dropWhile (fun c => !UrlM.pathEnd c))).1,
              frag := (UrlM.parseQF ((path ++ qpart q).dropWhile (fun c => !UrlM.pathEnd c))).2 } : UrlM.URLRec) := rfl
  rw [hpp, hpathspan.1, hpathspan.2]
  cases q with
  | none => rfl
  | some qq =>
    have hqq := hq qq rfl
    have hqtake : qq.takeWhile (fun c => decide (c ≠ '#')) = qq := by
      rw [List.takeWhile_eq_self_iff]
      intro c hc
      simpa using (hqq c hc).1
    have hqdrop : qq.dropWhile (fun c => decide (c ≠ '#')) = [] := by
      have htd := List.takeWhile_append_dropWhile
        (p := fun c => decide (c ≠ '#')) (l := qq)
      rw [hqtake] at htd
      have hlen := congrArg List.length htd
      rw [List.length_append] at hlen
      have h0 : (qq.dropWhile (fun c => decide (c ≠ '#'))).length = 0 := by
        omega
      exact List.eq_nil_of_length_eq_zero h0
    have hqf : UrlM.parseQF (qpart (some qq)) = (some qq, none) := by
      show (some (qq.takeWhile (fun c => c ≠ '#')),
        UrlM.fragAfter (qq.dropWhile (fun c => c ≠ '#'))) = (some qq, none)
      rw [hqtake, hqdrop]
      rfl
    rw [hqf]

/-! ## Claim C3: serializer facts and the full round trip -/

theorem toStr_concat (u : UrlM.URLRec) (hf : u.frag = none) :
    UrlM.toStr u =
      u.scheme ++ ':' :: '/' :: '/' :: u.host ++ u.path ++ qpart u.query := by
  obtain ⟨us, uh, up, uq, uf⟩ := u
  have hf2 : uf = none := hf
  subst hf2
  cases uq <;> simp [UrlM.toStr, qpart]

theorem toStr_ws {u : UrlM.URLRec} (hg : GoodRec u) :
    ∀ c ∈ UrlM.toStr u, wsChar c = false := by
  rw [toStr_concat u hg.frag_none]
  intro c hc
  rcases List.mem_append.mp hc with hc1 | hcq
  · rcases List.mem_append.mp hc1 with hc2 | hcp
    · rcases List.mem_append.mp hc2 with hcs | hcr
      · exact schemeChar_not_ws (hg.scheme_ok c hcs)
      · rcases List.mem_cons.mp hcr with rfl | h2
        · decide
        · rcases List.mem_cons.mp h2 with rfl | h3
          · decide
          · rcases List.mem_cons.mp h3 with rfl | h4
            · decide
            · exact (hg.host_ok c h4).2
    · exact (hg.path_ok c hcp).2
  · rcases hq : u.query with _ | qq
    · rw [hq] at hcq
      exact absurd hcq (List.not_mem_nil c)
    · rw [hq] at hcq
      have hcq2 : c ∈ '?' :: qq := hcq
      rcases List.mem_cons.mp hcq2 with rfl | h5
      · decide
      · exact (hg.query_ok qq hq c h5).2

theorem parse_of_toStr {u : UrlM.URLRec} (hg : GoodRec u) :
    UrlM.parse (String.mk (UrlM.toStr u)) = some u := by
  show UrlM.parseCore (trimCL (UrlM.toStr u)) = some u
  rw [trimCL_eq_self (toStr_ws hg), toStr_concat u hg.frag_none,
    parseCore_concat u.scheme u.host u.path u.query hg.scheme_ne hg.scheme_ok
      hg.scheme_alpha hg.host_ne hg.host_ok
      (Or.inr ⟨hg.path_slash, hg.path_ok⟩) hg.query_ok]
  have hpne : ¬(u.path.isEmpty = true) := by
    rw [List.isEmpty_iff]
    intro h0
    have hps := hg.path_slash
    rw [h0] at hps
    exact Option.noConfusion hps
  rw [if_neg hpne]
  have hf : u.frag = none := hg.frag_none
  obtain ⟨us, uh, up, uq, uf⟩ := u
  have hf2 : uf = none := hf
  subst hf2
  rfl

theorem stripSlash_last_slash {cs : List Char} (h : cs.getLast? = some '/') :
    UrlM.stripSlash cs = cs.dropLast := by
  unfold UrlM.stripSlash
  rw [if_pos h]

theorem stripSlash_no_slash {cs : List Char} (h : cs.getLast? ≠ some '/') :
    UrlM.stripSlash cs = cs := by
  unfold UrlM.stripSlash
  rw [if_neg h]

theorem normalizeUrl_of_parse_none {s : String} (h : UrlM.parse s = none) :
    Collect.normalizeUrl s = jsTrim s := by
  unfold Collect.normalizeUrl
  rw [h]

theorem normalizeUrl_of_parse_some {s : String} {r : UrlM.URLRec}
    (h : UrlM.parse s = some r) :
    Collect.normalizeUrl s =
      String.mk (UrlM.stripSlash (UrlM.toStr (cleanse r))) := by
  unfold Collect.normalizeUrl
  rw [h]
  rfl

theorem cleanQuery_idem {q : Option (List Char)}
    (hq : ∀ qq ∈ q, ∀ c ∈ qq, c ≠ '#' ∧ wsChar c = false) :
    Collect.cleanQuery (Collect.cleanQuery q) = Collect.cleanQuery q := by
  rcases cleanQuery_cases q hq with h | ⟨ps, h, hwf, hne, htrk⟩
  · rw [h]
    exact cleanQuery_none
  · rw [h]
    exact cleanQuery_serialize hwf hne htrk

theorem map_lowChar_idem (l : List Char) :
    (l.map lowChar).map lowChar = l.map lowChar := by
  rw [List.map_map]
  exact List.map_congr_left (fun c _ => lowChar_idem c)

theorem cleanse_eq_self {u : UrlM.URLRec}
    (hh : u.host.map lowChar = u.host)
    (hq : Collect.cleanQuery u.query = u.query)
    (hf : u.frag = none) : cleanse u = u := by
  apply UrlM.URLRec.ext
  · rfl
  · exact hh
  · rfl
  · exact hq
  · exact hf.symm

theorem cleanse_cleanse {r : UrlM.URLRec}
    (hq : ∀ qq ∈ r.query, ∀ c ∈ qq, c ≠ '#' ∧ wsChar c = false) :
    cleanse (cleanse r) = cleanse r := by
  apply cleanse_eq_self
  · exact map_lowChar_idem r.host
  · exact cleanQuery_idem hq
  · rfl

theorem normalizeUrl_fix_of_good {u : UrlM.URLRec} (hg : GoodRec u)
    (hcl : cleanse u = u) (hlast : (UrlM.toStr u).getLast? ≠ some '/') :
    Collect.normalizeUrl (String.mk (UrlM.toStr u)) =
      String.mk (UrlM.toStr u) := by
  rw [normalizeUrl_of_parse_some (parse_of_toStr hg), hcl,
    stripSlash_no_slash hlast]

theorem parseQF_fst_chars {r4 : List Char}
    (hws : ∀ c ∈ r4, wsChar c = false) :
    ∀ qq ∈ (UrlM.parseQF r4).1, ∀ c ∈ qq, c ≠ '#' ∧ wsChar c = false := by
  unfold UrlM.parseQF
  split
  · rename_i r5
    intro qq hqq c hc
    have hqq2 : r5.takeWhile (fun c => !decide (c = '#')) = qq := by
      simpa using hqq
    subst hqq2
    refine ⟨by simpa using List.mem_takeWhile_imp hc, ?_⟩
    have hcr5 : c ∈ r5 := (List.takeWhile_prefix _).subset hc
    exact hws c (List.mem_cons_of_mem _ hcr5)
  · intro qq hqq c hc
    exact absurd hqq (by simp)
  · intro qq hqq c hc
    exact absurd hqq (by simp)

theorem parse_good {cs : List Char} {r : UrlM.URLRec}
    (h : UrlM.parseCore cs = some r) :
    GoodRec (cleanse r) ∧
      ∀ qq ∈ r.query, ∀ c ∈ qq, c ≠ '#' ∧ wsChar c = false := by
  unfold UrlM.parseCore at h
  by_cases hws : cs.any wsChar = true
  · rw [if_pos hws] at h
    exact absurd h (by simp)
  · rw [if_neg hws] at h
    have hallws : ∀ c ∈ cs, wsChar c = false := by
      intro c hc
      cases hv : wsChar c
      · rfl
      · exact absurd (List.any_eq_true.mpr ⟨c, hc, hv⟩) hws
    unfold UrlM.parseScheme at h
    split at h
    · rename_i r2 heq
      split at h
      · exact absurd h (by simp)
      · split at h
        · exact absurd h (by simp)
        · split at h
          · exact absurd h (by simp)
          · rename_i hse hall halpha
            unfold UrlM.parseAuthority at h
            split at h
            · exact absurd h (by simp)
            · rename_i hhostne
              unfold UrlM.parsePath at h
              have hr := Option.some.inj h
              have hsch : r.scheme =
                  cs.takeWhile (fun c => decide (c ≠ ':')) := by
                rw [← hr]
              have hhost : r.host =
                  r2.takeWhile (fun c => !UrlM.hostEnd c) := by
                rw [← hr]
              have hpath : r.path =
                  if ((r2.dropWhile (fun c => !UrlM.hostEnd c)).takeWhile
                      (fun c => !UrlM.pathEnd c)).isEmpty then ['/']
                  else (r2.dropWhile (fun c => !UrlM.hostEnd c)).takeWhile
                      (fun c => !UrlM.pathEnd c) := by
                rw [← hr]
              have hq2 : r.query =
                  (UrlM.parseQF ((r2.dropWhile
                    (fun c => !UrlM.hostEnd c)).dropWhile
                    (fun c => !UrlM.pathEnd c))).1 := by
                rw [← hr]
              have hsub2 : ∀ c ∈ r2, c ∈ cs := by
                intro c hc
                have h1 : c ∈ cs.dropWhile (fun c => decide (c ≠ ':')) := by
                  rw [heq]
                  exact List.mem_cons_of_mem _ (List.mem_cons_of_mem _
                    (List.mem_cons_of_mem _ hc))
                exact (List.dropWhile_suffix _).subset h1
              have hqch : ∀ qq ∈ r.query, ∀ c ∈ qq,
                  c ≠ '#' ∧ wsChar c = false := by
                rw [hq2]
                apply parseQF_fst_chars
                intro c hc
                apply hallws
                have h1 : c ∈ r2.dropWhile (fun c => !UrlM.hostEnd c) :=
                  (List.dropWhile_suffix _).subset hc
                exact hsub2 c ((List.dropWhile_suffix _).subset h1)
              refine ⟨⟨?_, ?_, ?_, ?_, ?_, ?_, ?_, ?_, rfl⟩, hqch⟩
              · show r.scheme ≠ []
                rw [hsch]
                intro h0
                apply hse
                rw [h0]
                rfl
              · show ∀ c ∈ r.scheme, UrlM.schemeChar c = true
                rw [hsch]
                have hallt : (cs.takeWhile (fun c => decide (c ≠ ':'))).all
                    UrlM.schemeChar = true := by
                  cases hx : (cs.takeWhile (fun c => decide (c ≠ ':'))).all
                      UrlM.schemeChar
                  · exact absurd (by rw [hx]; rfl) hall
                  · rfl
                exact List.all_eq_true.mp hallt
              · show ((r.scheme).headD 'a').isAlpha = true
                rw [hsch]
                cases hx : ((cs.takeWhile
                    (fun c => decide (c ≠ ':'))).headD 'a').isAlpha
                · exact absurd (by rw [hx]; rfl) halpha
                · rfl
              · show r.host.map lowChar ≠ []
                rw [hhost]
                intro h0
                rw [List.map_eq_nil] at h0
                apply hhostne
                rw [h0]
                rfl
              · show ∀ c ∈ r.host.map lowChar,
                    UrlM.hostEnd c = false ∧ wsChar c = false
                rw [hhost]
                intro c hc
                rcases List.mem_map.mp hc with ⟨a, ha, rfl⟩
                have h1 : UrlM.hostEnd a = false := by
                  have h2 := List.mem_takeWhile_imp ha
                  simpa using h2
                have h2 : wsChar a = false := by
                  apply hallws
                  exact hsub2 a ((List.takeWhile_prefix _).subset ha)
                exact ⟨hostEnd_lowChar h1, wsChar_lowChar h2⟩
              · show r.path.head? = some '/'
                rw [hpath]
                by_cases hemp : ((r2.dropWhile
                    (fun c => !UrlM.hostEnd c)).takeWhile
                    (fun c => !UrlM.pathEnd c)).isEmpty = true
                · rw [if_pos hemp]
                  rfl
                · rw [if_neg hemp]
                  rcases hpc : (r2.dropWhile
                      (fun c => !UrlM.hostEnd c)).takeWhile
                      (fun c => !UrlM.pathEnd c) with _ | ⟨p0, pt⟩
                  · exact absurd (by rw [hpc]; rfl) hemp
                  · have hp0mem : p0 ∈ (r2.dropWhile
                        (fun c => !UrlM.hostEnd c)).takeWhile
                        (fun c => !UrlM.pathEnd c) := by
                      rw [hpc]
                      exact List.mem_cons_self p0 pt
                    have hpe : UrlM.pathEnd p0 = false := by
                      have h2 := List.mem_takeWhile_imp hp0mem
                      simpa using h2
                    have hh : (p0 :: pt).head? =
                        (r2.dropWhile (fun c => !UrlM.hostEnd c)).head? := by
                      rw [← hpc]
                      exact prefix_head_eq (List.takeWhile_prefix _)
                        (by rw [hpc]; simp)
                    rcases hr3 : r2.dropWhile (fun c => !UrlM.hostEnd c)
                        with _ | ⟨a, t⟩
                    · rw [hr3] at hh
                      simp at hh
                    · rw [hr3] at hh
                      simp only [List.head?_cons] at hh
                      have hpa : p0 = a := Option.some.inj hh
                      have hhe : UrlM.hostEnd a = true := by
                        have h2 := dropWhile_head_false hr3
                        simpa using h2
                      rw [← hpa] at hhe
                      have hn1 := (hostEnd_toNat p0).mp hhe
                      have hn2 : ¬(p0.toNat = 63 ∨ p0.toNat = 35) := by
                        intro hx
                        have h3 := (pathEnd_toNat p0).mpr hx
                        rw [hpe] at h3
                        exact Bool.noConfusion h3
                      have h47 : p0.toNat = 47 := by
                        rcases hn1 with h5 | h5 | h5
                        · exact h5
                        · exact absurd (Or.inl h5) hn2
                        · exact absurd (Or.inr h5) hn2
                      have hps : p0 = '/' :=
                        @charToNat_inj p0 '/' (by rw [h47]; decide)
                      rw [List.head?_cons, hps]
              · show ∀ c ∈ r.path, UrlM.pathEnd c = false ∧ wsChar c = false
                rw [hpath]
                intro c hc
                by_cases hemp : ((r2.dropWhile
                    (fun c => !UrlM.hostEnd c)).takeWhile
                    (fun c => !UrlM.pathEnd c)).isEmpty = true
                · rw [if_pos hemp] at hc
                  have hcs : c = '/' := by simpa using hc
                  rw [hcs]
                  exact ⟨by decide, by decide⟩
                · rw [if_neg hemp] at hc
                  have h1 : UrlM.pathEnd c = false := by
                    have h2 := List.mem_takeWhile_imp hc
                    simpa using h2
                  have h2 : wsChar c = false := by
                    apply hallws
                    have hcr3 : c ∈ r2.dropWhile (fun c => !UrlM.hostEnd c) :=
                      (List.takeWhile_prefix _).subset hc
                    exact hsub2 c ((List.dropWhile_suffix _).subset hcr3)
                  exact ⟨h1, h2⟩
              · show ∀ q ∈ Collect.cleanQuery r.query, ∀ c ∈ q,
                    c ≠ '#' ∧ wsChar c = false
                rcases cleanQuery_cases r.query hqch with
                  hnone | ⟨ps, hqq, hwf, hne, htrk⟩
                · rw [hnone]
                  intro q hq
                  exact absurd hq (by simp)
                · rw [hqq]
                  intro q hq c hc
                  have hq3 : UrlM.serializePairs ps = q := by simpa using hq
                  rw [← hq3] at hc
                  exact serializePairs_chars hwf c hc
    · exact absurd h (by simp)

/-- Claim C3 (counterexample): `normalizeUrl` is not idempotent.  On
`http://example.com//` the first pass keeps the double slash the URL
parser preserved and strips only one of the two trailing slashes, so a
second pass strips another one and yields a different string. -/
theorem normalizeUrl_not_idempotent_double_slash :
    Collect.normalizeUrl "http://example.com//" = "http://example.com/" ∧
      Collect.normalizeUrl (Collect.normalizeUrl "http://example.com//") ≠
        Collect.normalizeUrl "http://example.com//" := by
  exact ⟨by decide, by decide⟩

/-- Claim C3 (amended): `normalizeUrl` is idempotent on every input whose
normalization does not end in a slash.  The fallback branch re-trims a
trimmed string; a parsed URL re-serializes to a string the parser maps
back to the same record, on which the fragment-clearing, tracking-parameter
removal and host lower-casing are fixed, so only the final strip-one-slash
step can change a second pass — and it only fires when the first pass
left a trailing slash (see the counterexample). -/
theorem normalizeUrl_idem (l : String)
    (h : (Collect.normalizeUrl l).data.getLast? ≠ some '/') :
    Collect.normalizeUrl (Collect.normalizeUrl l) = Collect.normalizeUrl l := by
  cases hp : UrlM.parse l with
  | none =>
    rw [normalizeUrl_of_parse_none hp]
    have h2 : UrlM.parse (jsTrim l) = none := by
      show UrlM.parseCore (trimCL (jsTrim l).data) = none
      have hd : (jsTrim l).data = trimCL l.data := rfl
      rw [hd, trimCL_idem]
      exact hp
    rw [normalizeUrl_of_parse_none h2]
    show String.mk (trimCL (jsTrim l).data) = jsTrim l
    rw [show (jsTrim l).data = trimCL l.data from rfl, trimCL_idem]
    rfl
  | some r =>
    have hp2 : UrlM.parseCore (trimCL l.data) = some r := hp
    obtain ⟨hgood, hqch⟩ := parse_good hp2
    rw [normalizeUrl_of_parse_some hp] at h ⊢
    have h2 : (UrlM.stripSlash (UrlM.toStr (cleanse r))).getLast? ≠
        some '/' := h
    by_cases hT : (UrlM.toStr (cleanse r)).getLast? = some '/'
    · -- the first pass stripped a slash; analyse where it came from
      rw [stripSlash_last_slash hT] at h2 ⊢
      rcases cleanQuery_cases r.query hqch with hq1 | ⟨ps, hq1, hwf, hne, htrk⟩
      · -- no query: the slash ends the path
        have hq1b : (cleanse r).query = none := hq1
        have hTc2 : UrlM.toStr (cleanse r) =
            (cleanse r).scheme ++ ':' :: '/' :: '/' :: (cleanse r).host ++
              (cleanse r).path := by
          rw [toStr_concat _ rfl, hq1b]
          simp [qpart]
        have hpne : (cleanse r).path ≠ [] := by
          intro h0
          have hps := hgood.path_slash
          rw [h0] at hps
          exact Option.noConfusion hps
        by_cases hpone : (cleanse r).path = ['/']
        · -- path was the bare slash: reparsing restores it
          have hD : (UrlM.toStr (cleanse r)).dropLast =
              (cleanse r).scheme ++ ':' :: '/' :: '/' :: (cleanse r).host := by
            rw [hTc2, hpone, List.dropLast_append_of_ne_nil _ (by simp)]
            simp
          have hws2 : ∀ c ∈ (cleanse r).scheme ++ ':' :: '/' :: '/' ::
              (cleanse r).host, wsChar c = false := by
            intro c hc
            rcases List.mem_append.mp hc with hcs | hcr
            · exact schemeChar_not_ws (hgood.scheme_ok c hcs)
            · rcases List.mem_cons.mp hcr with rfl | hc2
              · decide
              · rcases List.mem_cons.mp hc2 with rfl | hc3
                · decide
                · rcases List.mem_cons.mp hc3 with rfl | hc4
                  · decide
                  · exact (hgood.host_ok c hc4).2
          have hparse2 : UrlM.parse (String.mk ((cleanse r).scheme ++
              ':' :: '/' :: '/' :: (cleanse r).host)) = some (cleanse r) := by
            show UrlM.parseCore (trimCL ((cleanse r).scheme ++
              ':' :: '/' :: '/' :: (cleanse r).host)) = some (cleanse r)
            rw [trimCL_eq_self hws2]
            have hcc := parseCore_concat (cleanse r).scheme (cleanse r).host
              [] none hgood.scheme_ne hgood.scheme_ok hgood.scheme_alpha
              hgood.host_ne hgood.host_ok (Or.inl rfl)
              (by intro qq hqq; exact absurd hqq (by simp))
            rw [show (cleanse r).scheme ++ ':' :: '/' :: '/' ::
                (cleanse r).host ++ ([] : List Char) ++ qpart none =
                (cleanse r).scheme ++ ':' :: '/' :: '/' :: (cleanse r).host
                from by simp [qpart]] at hcc
            rw [hcc]
            congr 1
            apply UrlM.URLRec.ext
            · rfl
            · rfl
            · rw [hpone]
              simp
            · exact hq1b.symm
            · rfl
          rw [hD, normalizeUrl_of_parse_some hparse2, cleanse_cleanse hqch,
            stripSlash_last_slash hT, hD]
        · -- the path ends in a slash after at least one other character
          have hplast : (cleanse r).path.getLast? = some '/' := by
            rw [hTc2] at hT
            rwa [List.getLast?_append_of_ne_nil _ hpne] at hT
          have hd2 : (UrlM.toStr (cleanse r)).dropLast =
              (cleanse r).scheme ++ ':' :: '/' :: '/' :: (cleanse r).host ++
                (cleanse r).path.dropLast := by
            rw [hTc2]
            exact List.dropLast_append_of_ne_nil _ hpne
          have hgood2 : GoodRec (dropPathRec (cleanse r)) := by
            refine ⟨hgood.scheme_ne, hgood.scheme_ok, hgood.scheme_alpha,
              hgood.host_ne, hgood.host_ok, ?_, ?_, ?_, rfl⟩
            · show (cleanse r).path.dropLast.head? = some '/'
              rcases hpl : (cleanse r).path with _ | ⟨p0, _ | ⟨p1, t⟩⟩
              · exact absurd hpl hpne
              · exfalso
                have hh := hgood.path_slash
                rw [hpl] at hh
                have hp0 : p0 = '/' := by simpa using hh
                apply hpone
                rw [hpl, hp0]
              · have hh := hgood.path_slash
                rw [hpl] at hh
                have hred : (p0 :: p1 :: t).dropLast =
                    p0 :: (p1 :: t).dropLast := rfl
                rw [hred, List.head?_cons]
                rw [List.head?_cons] at hh
                exact hh
            · show ∀ c ∈ (cleanse r).path.dropLast,
                  UrlM.pathEnd c = false ∧ wsChar c = false
              intro c hc
              exact hgood.path_ok c ((List.dropLast_sublist _).subset hc)
            · intro qq hqq
              exact absurd hqq (by simp [dropPathRec])
          have htoStr2 : UrlM.toStr (dropPathRec (cleanse r)) =
              (UrlM.toStr (cleanse r)).dropLast := by
            rw [toStr_concat _ rfl, hd2]
            simp [qpart, dropPathRec]
          have hcl2 : cleanse (dropPathRec (cleanse r)) =
              dropPathRec (cleanse r) := by
            apply cleanse_eq_self
            · exact map_lowChar_idem r.host
            · rfl
            · rfl
          have hlast2 : (UrlM.toStr (dropPathRec (cleanse r))).getLast? ≠
              some '/' := by
            rw [htoStr2]
            exact h2
          rw [← htoStr2]
          exact normalizeUrl_fix_of_good hgood2 hcl2 hlast2
      · -- a query is present: the slash ends the serialized query
        have hq1b : (cleanse r).query = some (UrlM.serializePairs ps) := hq1
        have hSne : UrlM.serializePairs ps ≠ [] := serializePairs_ne_nil hne
        have hTc2 : UrlM.toStr (cleanse r) =
            ((cleanse r).scheme ++ ':' :: '/' :: '/' :: (cleanse r).host ++
              (cleanse r).path) ++ '?' :: UrlM.serializePairs ps := by
          rw [toStr_concat _ rfl, hq1b]
          rfl
        have hS : (UrlM.serializePairs ps).getLast? = some '/' := by
          rw [hTc2, List.getLast?_append_of_ne_nil _ (by simp)] at hT
          rcases hSl : UrlM.serializePairs ps with _ | ⟨a, t⟩
          · exact absurd hSl hSne
          · rw [hSl, List.getLast?_cons_cons] at hT
            exact hT
        obtain ⟨ps2, hser2, hwf2, hne2, hmap2⟩ :=
          serializePairs_dropLast_ex hwf hne hS
        have htrk2 : ∀ kv ∈ ps2,
            (Collect.trackingParams.map String.data).contains kv.1 = false := by
          intro kv hkv
          have h1 : kv.1 ∈ ps2.map Prod.fst := List.mem_map_of_mem _ hkv
          rw [hmap2] at h1
          rcases List.mem_map.mp h1 with ⟨kv0, hkv0, hfst⟩
          rw [← hfst]
          exact htrk kv0 hkv0
        have hgood2 : GoodRec
            (setQueryRec (cleanse r) (UrlM.serializePairs ps2)) := by
          refine ⟨hgood.scheme_ne, hgood.scheme_ok, hgood.scheme_alpha,
            hgood.host_ne, hgood.host_ok, hgood.path_slash, hgood.path_ok,
            ?_, rfl⟩
          intro qq hqq c hc
          have hqq2 : UrlM.serializePairs ps2 = qq := by
            have hqq3 : (setQueryRec (cleanse r)
                (UrlM.serializePairs ps2)).query = some qq := by
              simpa using hqq
            exact Option.some.inj hqq3
          rw [← hqq2] at hc
          exact serializePairs_chars hwf2 c hc
        have htoStr2 : UrlM.toStr
            (setQueryRec (cleanse r) (UrlM.serializePairs ps2)) =
            (UrlM.toStr (cleanse r)).dropLast := by
          rw [toStr_concat _ rfl,
            show (UrlM.toStr (cleanse r)).dropLast =
              ((cleanse r).scheme ++ ':' :: '/' :: '/' :: (cleanse r).host ++
                (cleanse r).path) ++
                '?' :: (UrlM.serializePairs ps).dropLast from by
              rw [hTc2, List.dropLast_append_of_ne_nil _ (by simp),
                List.dropLast_cons_of_ne_nil hSne],
            ← hser2]
          rfl
        have hcl2 : cleanse (setQueryRec (cleanse r) (UrlM.serializePairs ps2)) =
            setQueryRec (cleanse r) (UrlM.serializePairs ps2) := by
          apply cleanse_eq_self
          · exact map_lowChar_idem r.host
          · exact cleanQuery_serialize hwf2 hne2 htrk2
          · rfl
        have hlast2 : (UrlM.toStr
            (setQueryRec (cleanse r) (UrlM.serializePairs ps2))).getLast? ≠
            some '/' := by
          rw [htoStr2]
          exact h2
        rw [← htoStr2]
        exact normalizeUrl_fix_of_good hgood2 hcl2 hlast2
    · -- no trailing slash: a single round trip fixes the string
      rw [stripSlash_no_slash hT]
      exact normalizeUrl_fix_of_good hgood (cleanse_cleanse hqch) hT

theorem normalizeUrl_idem_witness :
    (Collect.normalizeUrl "http://Example.com/a?x=1&y=2#frag").data.getLast? ≠
        some '/' ∧
      Collect.normalizeUrl (Collect.normalizeUrl
          "http://Example.com/a?x=1&y=2#frag") =
        Collect.normalizeUrl "http://Example.com/a?x=1&y=2#frag" :=
  ⟨by decide, normalizeUrl_idem "http://Example.com/a?x=1&y=2#frag" (by decide)⟩
